import Mathlib

/-!
Shopping-list service: repository, service and add-item handler.

A shallow embedding of `main.go`.

* Go's `int` is modelled by `Int`, with the wrap-around of a 64-bit `int`
  (`wrapInt`) where the code does arithmetic: `product.UsageCount++`.
  Go strings are modelled by `String`, slices by `List`; a Go slice holds at
  most `2^63 - 1` elements, a `List` of any length is allowed here.
* A `*Product` returned by `FindByID` points into `m.products`; it is modelled
  by the index of the slice element it points to, paired with the value there.
* A Go result pair `(v, err)` is an `Except String _` (`error msg` when
  `err != nil`).  A run-time panic is `none` of an `Option`.
* Where a claim is about which backing array a statement writes to
  (`GetMostUsed` and its copy), slices are headers into a heap of arrays.
* `sort.Slice`, `strings.EqualFold` and `strconv.Atoi` belong to the Go library.
  The functions that call them take them as a parameter; theorems state the
  library contract they rely on as a hypothesis.  On a slice of at most 12
  elements `sort.Slice` runs `insertionSortLessFunc`, which is given in full.
-/

namespace UserStory

/-! ## Data model -/

deriving instance DecidableEq for Except

/-- Go: `type Unit string`. -/
abbrev Unit := String

def Piece : Unit := "szt."
def Kilogram : Unit := "kg"
def Gram : Unit := "g"
def Liter : Unit := "l"
def Mililiter : Unit := "ml"

/-- Go: `type Product struct`. -/
structure Product where
  ID : Int
  Name : String
  Category : String
  AvailableUnits : List Unit
  UsageCount : Int
  deriving DecidableEq, Repr

/-- Go: `type MockProductRepository struct`. -/
structure MockProductRepository where
  products : List Product
  deriving DecidableEq, Repr

/-- Go: `NewMockProductRepository`; `UsageCount` is left at its zero value. -/
def NewMockProductRepository : MockProductRepository :=
  { products :=
      [ { ID := 1, Name := "Mleko", Category := "nabiał",
          AvailableUnits := [Liter, Mililiter], UsageCount := 0 },
        { ID := 2, Name := "Ser żółty", Category := "nabiał",
          AvailableUnits := [Kilogram, Gram], UsageCount := 0 },
        { ID := 3, Name := "Jogurt naturalny", Category := "nabiał",
          AvailableUnits := [Piece, Gram], UsageCount := 0 },
        { ID := 4, Name := "Pomidor", Category := "warzywa",
          AvailableUnits := [Piece, Kilogram], UsageCount := 0 },
        { ID := 5, Name := "Ogórek", Category := "warzywa",
          AvailableUnits := [Piece, Kilogram], UsageCount := 0 },
        { ID := 6, Name := "Chleb", Category := "pieczywo",
          AvailableUnits := [Piece], UsageCount := 0 } ] }

/-- Go: `type ShoppingItem struct`; the `float64` quantity is a rational. -/
structure ShoppingItem where
  ProductID : Int
  Quantity : Rat
  Unit : Unit
  deriving DecidableEq, Repr

/-- Go: `type ShoppingService struct`, with the mock repository behind `repo`. -/
structure ShoppingService where
  repo : MockProductRepository
  shoppingList : List ShoppingItem
  deriving DecidableEq, Repr

/-- Go: the service built by `main` and by `setupTestServer`. -/
def newShoppingService : ShoppingService :=
  { repo := NewMockProductRepository, shoppingList := [] }

/-! ## Repository -/

/-- Go: `GetAll`. -/
def GetAll (m : MockProductRepository) : Except String (List Product) :=
  .ok m.products

/-- The message of the error of `FindByID`:
`fmt.Errorf("produkt o ID %d nie został znaleziony", id)`. -/
def notFoundMessage (id : Int) : String :=
  "produkt o ID " ++ toString id ++ " nie został znaleziony"

/-- Go: a `*Product` into `m.products`: the index of the element it points to,
with the value found there. -/
structure ProductPtr where
  index : Nat
  target : Product
  deriving DecidableEq, Repr

/-- The loop of `FindByID` over `m.products[i:]`: the first element whose `ID`
is `id`, with its index. -/
def findFrom (id : Int) : List Product → Nat → Option ProductPtr
  | [], _ => none
  | p :: ps, i => if p.ID = id then some ⟨i, p⟩ else findFrom id ps (i + 1)

/-- Go: `FindByID`. -/
def FindByID (m : MockProductRepository) (id : Int) : Except String ProductPtr :=
  match findFrom id m.products 0 with
  | some ptr => .ok ptr
  | none => .error (notFoundMessage id)

/-- The loop of `GetByCategory`: `filtered = append(filtered, p)` for each
product whose category folds to `category`. -/
def filterCategory (EqualFold : String → String → Bool) (category : String) :
    List Product → List Product → List Product
  | [], filtered => filtered
  | p :: ps, filtered =>
    if EqualFold p.Category category then
      filterCategory EqualFold category ps (filtered ++ [p])
    else
      filterCategory EqualFold category ps filtered

/-- Go: `GetByCategory`, over the library function `strings.EqualFold`. -/
def GetByCategory (EqualFold : String → String → Bool) (m : MockProductRepository)
    (category : String) : Except String (List Product) :=
  .ok (filterCategory EqualFold category m.products [])

/-- The comparison `GetMostUsed` hands to `sort.Slice`:
`productsCopy[i].UsageCount > productsCopy[j].UsageCount`. -/
def usageLess (a b : Product) : Bool :=
  decide (a.UsageCount > b.UsageCount)

/-- Go: `GetMostUsed`, over the library function `sort.Slice`, which acts on
the copy.  `none` is the run-time panic of `productsCopy[:limit]` when
`limit` is negative. -/
def GetMostUsed (sortSlice : (Product → Product → Bool) → List Product → List Product)
    (m : MockProductRepository) (limit : Int) : Option (Except String (List Product)) :=
  let productsCopy := sortSlice usageLess m.products
  let limit := if limit > (productsCopy.length : Int) then (productsCopy.length : Int) else limit
  if limit < 0 then none else some (.ok (productsCopy.take limit.toNat))

/-! ## The library functions the repository calls -/

/-- The contract of `sort.Slice` for a comparison that is a strict weak order
(asymmetric, and transitive on its complement): the elements are rearranged,
and afterwards no element is less than one before it. -/
def SortSliceSpec (sortSlice : (Product → Product → Bool) → List Product → List Product) :
    Prop :=
  ∀ less : Product → Product → Bool,
    (∀ a b, less a b = true → less b a = false) →
    (∀ a b c, less a b = false → less b c = false → less a c = false) →
    ∀ data, (sortSlice less data).Perm data ∧
      (sortSlice less data).Pairwise (fun x y => less y x = false)

/-- Go library, the inner loop of `insertionSortLessFunc`:
`for j := i; j > a && less(j, j-1); j-- { swap(j, j-1) }`.
The argument list is `data[a:i]` read backwards (its head is `data[i-1]`),
`x` is `data[i]`; the result is `data[a:i+1]` after the loop, read backwards. -/
def sinkDown (less : Product → Product → Bool) (x : Product) : List Product → List Product
  | [] => [x]
  | y :: before => if less x y then y :: sinkDown less x before else x :: y :: before

/-- Go library, the outer loop of `insertionSortLessFunc`: `done` is the part
already in order, read backwards, and the second list is `data[i:b]`. -/
def insertionLoop (less : Product → Product → Bool) : List Product → List Product → List Product
  | done, [] => done.reverse
  | done, x :: rest => insertionLoop less (sinkDown less x done) rest

/-- Go library, `insertionSortLessFunc`: what `sort.Slice` runs on a slice of at
most 12 elements. -/
def insertionSortLessFunc (less : Product → Product → Bool) (data : List Product) :
    List Product :=
  insertionLoop less [] data

/-- The contract of `strings.EqualFold` that `GetByCategory` relies on: equality
under case folding is symmetric and transitive. -/
def EqualFoldSpec (EqualFold : String → String → Bool) : Prop :=
  (∀ s t, EqualFold s t = true → EqualFold t s = true) ∧
  (∀ s t u, EqualFold s t = true → EqualFold t u = true → EqualFold s u = true)

/-- The lower-case partner of the upper-case letters A to Z and Ó, Ł, Ż; every
other code point is its own. -/
def foldKey (c : Char) : Nat :=
  let n := c.toNat
  if 65 ≤ n ∧ n ≤ 90 then n + 32
  else if n = 0xD3 then 0xF3
  else if n = 0x141 then 0x142
  else if n = 0x17B then 0x17C
  else n

/-- Equality under case folding on the letters of `foldKey`: an instance of
`EqualFoldSpec` that agrees with `strings.EqualFold` on the strings of the
catalog. -/
def equalFoldLatin (s t : String) : Bool :=
  s.data.map foldKey == t.data.map foldKey

/-! ## Service -/

/-- Go: `slices.Contains`. -/
def slicesContains (s : List Unit) (v : Unit) : Bool :=
  match s with
  | [] => false
  | x :: xs => if x = v then true else slicesContains xs v

/-- The message of the invalid-unit error:
`fmt.Errorf("produkt %s nie jest dostępny w jednostce %s", product.Name, unit)`. -/
def invalidUnitMessage (name : String) (unit : Unit) : String :=
  "produkt " ++ name ++ " nie jest dostępny w jednostce " ++ unit

/-- The largest value of a Go `int` on a 64-bit platform, `math.MaxInt64`. -/
def maxInt : Int := 9223372036854775807

/-- The value a 64-bit Go `int` takes for the exact result `x` of an arithmetic
operation: `x` wrapped around into `-2^63 .. 2^63 - 1`. -/
def wrapInt (x : Int) : Int :=
  (x + 9223372036854775808) % 18446744073709551616 - 9223372036854775808

/-- Go: `product.UsageCount++` through the pointer `&m.products[i]`. -/
def incrementUsage : List Product → Nat → List Product
  | [], _ => []
  | p :: ps, 0 => { p with UsageCount := wrapInt (p.UsageCount + 1) } :: ps
  | p :: ps, i + 1 => p :: incrementUsage ps i

/-- Go: `AddProductToList`.  Returns the state after the call and the result;
the returned pointer sees the incremented counter. -/
def AddProductToList (s : ShoppingService) (productID : Int) (unit : Unit) :
    ShoppingService × Except String ProductPtr :=
  match FindByID s.repo productID with
  | .error err => (s, .error err)
  | .ok product =>
    if !slicesContains product.target.AvailableUnits unit then
      (s, .error (invalidUnitMessage product.target.Name unit))
    else
      ({ repo := { products := incrementUsage s.repo.products product.index },
         shoppingList := s.shoppingList ++
           [{ ProductID := productID, Quantity := 1, Unit := unit }] },
       .ok { product with
             target := { product.target with
                         UsageCount := wrapInt (product.target.UsageCount + 1) } })

/-- The seeded service with the usage counter of product 1 at `math.MaxInt64`;
the product ids are pairwise distinct. -/
def usageAtMaxInt : ShoppingService :=
  { repo := { products :=
      [ { ID := 1, Name := "Mleko", Category := "nabiał",
          AvailableUnits := [Liter, Mililiter], UsageCount := 9223372036854775807 },
        { ID := 2, Name := "Ser żółty", Category := "nabiał",
          AvailableUnits := [Kilogram, Gram], UsageCount := 0 },
        { ID := 3, Name := "Jogurt naturalny", Category := "nabiał",
          AvailableUnits := [Piece, Gram], UsageCount := 0 },
        { ID := 4, Name := "Pomidor", Category := "warzywa",
          AvailableUnits := [Piece, Kilogram], UsageCount := 0 },
        { ID := 5, Name := "Ogórek", Category := "warzywa",
          AvailableUnits := [Piece, Kilogram], UsageCount := 0 },
        { ID := 6, Name := "Chleb", Category := "pieczywo",
          AvailableUnits := [Piece], UsageCount := 0 } ] },
    shoppingList := [] }

/-! ## HTTP adapter -/

/-- Go: `strings.Contains` on the characters of the strings. -/
def containsChars (substr : List Char) : List Char → Bool
  | [] => substr.isEmpty
  | c :: cs => substr.isPrefixOf (c :: cs) || containsChars substr cs

/-- Go: `strings.Contains`. -/
def stringsContains (s substr : String) : Bool :=
  containsChars substr.data s.data

/-- What a handler wrote: the status code and the JSON object of the body. -/
structure Response where
  code : Nat
  body : List (String × String)
  deriving DecidableEq, Repr

/-- Go: `respondWithError`. -/
def respondWithError (code : Nat) (message : String) : Response :=
  { code := code, body := [("error", message)] }

/-- A request to `handleAddItem`: its method and what
`json.NewDecoder(r.Body).Decode(&req)` makes of the body (`none` when the
decoder returns an error). -/
structure AddItemRequest where
  Method : String
  Body : Option ShoppingItem
  deriving DecidableEq, Repr

/-- Go: `handleAddItem`. -/
def handleAddItem (s : ShoppingService) (r : AddItemRequest) : ShoppingService × Response :=
  if r.Method ≠ "POST" then
    (s, respondWithError 405 "method not allowed")
  else
    match r.Body with
    | none => (s, respondWithError 400 "wrong json format")
    | some req =>
      match AddProductToList s req.ProductID req.Unit with
      | (s1, .error err) =>
        if stringsContains err "nie został znaleziony" then
          (s1, respondWithError 404 err)
        else
          (s1, respondWithError 400 err)
      | (s1, .ok product) =>
        (s1, { code := 201,
               body := [("message", "Dodano '" ++ product.target.Name ++ "' do listy zakupów")] })

/-- What `handleGetMostUsed` wrote: a status code with the JSON array of
products, or an error response. -/
inductive ProductsResponse where
  | products (code : Nat) (payload : List Product)
  | failure (response : Response)
  deriving DecidableEq, Repr

/-- Go: the first lines of `handleGetMostUsed`: `limit := 3`, replaced by `l`
when `strconv.Atoi` returns `l` without error and `l > 0`.  `limitParam` is
`r.URL.Query().Get("limit")`, the empty string when the parameter is missing. -/
def requestLimit (Atoi : String → Except String Int) (limitParam : String) : Int :=
  match Atoi limitParam with
  | .ok l => if l > 0 then l else 3
  | .error _ => 3

/-- Go: the rest of `handleGetMostUsed`, on what `GetMostUsed` returned. -/
def respondMostUsed : Option (Except String (List Product)) → Option ProductsResponse
  | none => none
  | some (.error err) => some (.failure (respondWithError 500 err))
  | some (.ok products) => some (.products 200 products)

/-- Go: `handleGetMostUsed`, over the library functions `strconv.Atoi` and
`sort.Slice`. -/
def handleGetMostUsed (Atoi : String → Except String Int)
    (sortSlice : (Product → Product → Bool) → List Product → List Product)
    (s : ShoppingService) (limitParam : String) : Option ProductsResponse :=
  let limit := requestLimit Atoi limitParam
  respondMostUsed (GetMostUsed sortSlice s.repo limit)

/-- The value of a string of decimal digits; `none` when a character is not a
digit. -/
def digitsValue : List Char → Nat → Option Nat
  | [], n => some n
  | ch :: rest, n =>
    if 48 ≤ ch.toNat ∧ ch.toNat ≤ 57 then digitsValue rest (n * 10 + (ch.toNat - 48))
    else none

/-- Go library, `strconv.Atoi` for a 64-bit `int`: an optional sign, then at
least one decimal digit, and a value within the range of `int`. -/
def strconvAtoi (s : String) : Except String Int :=
  let signed : Bool × List Char :=
    match s.data with
    | '-' :: rest => (true, rest)
    | '+' :: rest => (false, rest)
    | rest => (false, rest)
  if signed.2.isEmpty then .error "invalid syntax"
  else
    match digitsValue signed.2 0 with
    | none => .error "invalid syntax"
    | some n =>
      let v : Int := if signed.1 then -(n : Int) else (n : Int)
      if v < -9223372036854775808 ∨ v > 9223372036854775807 then .error "value out of range"
      else .ok v

/-! ## GetMostUsed on a heap of backing arrays -/

/-- The zero value of `Product`, which `make` fills a new slice with. -/
def zeroProduct : Product :=
  { ID := 0, Name := "", Category := "", AvailableUnits := [], UsageCount := 0 }

/-- A Go slice `array[0:len]`: the address of its backing array and its length.
Two slices with the same `array` share their elements. -/
structure Slice where
  array : Nat
  len : Nat
  deriving DecidableEq, Repr

/-- The backing arrays allocated so far; the address of an array is its
position. -/
abbrev Heap := List (List Product)

/-- The backing array a slice refers to. -/
def backing (h : Heap) (x : Slice) : List Product :=
  h.getD x.array []

/-- The elements of a slice. -/
def readSlice (h : Heap) (x : Slice) : List Product :=
  (backing h x).take x.len

/-- Writing `elems` to `x[0], x[1], ...`: the backing array of `x` changes, and
with it every slice that shares it. -/
def writeSlice (h : Heap) (x : Slice) (elems : List Product) : Heap :=
  h.set x.array (elems ++ (backing h x).drop elems.length)

/-- Go: `make([]Product, n)`: a new backing array of zero values, at an
address not in use. -/
def makeSlice (h : Heap) (n : Nat) : Heap × Slice :=
  (h ++ [List.replicate n zeroProduct], { array := h.length, len := n })

/-- Go: the built-in `copy(dst, src)`: the first `min(len(dst), len(src))`
elements of `src` are written to `dst`. -/
def copyInto (h : Heap) (dst src : Slice) : Heap :=
  writeSlice h dst ((readSlice h src).take (min dst.len src.len))

/-- Go: `sort.Slice(x, less)`: the elements of `x` are rearranged in place, that
is in the backing array of `x`. -/
def sortInPlace (sortSlice : (Product → Product → Bool) → List Product → List Product)
    (less : Product → Product → Bool) (h : Heap) (x : Slice) : Heap :=
  writeSlice h x (sortSlice less (readSlice h x))

/-- Go: `GetMostUsed`, statement by statement on the heap; `products` is the
slice `m.products`.  Returns the heap after the call and the slice returned. -/
def GetMostUsedOnHeap
    (sortSlice : (Product → Product → Bool) → List Product → List Product)
    (h : Heap) (products : Slice) (limit : Int) : Heap × Option (Except String Slice) :=
  let made := makeSlice h products.len
  let productsCopy := made.2
  let h1 := copyInto made.1 productsCopy products
  let h2 := sortInPlace sortSlice usageLess h1 productsCopy
  let limit := if limit > (productsCopy.len : Int) then (productsCopy.len : Int) else limit
  (h2, if limit < 0 then none else some (.ok { productsCopy with len := limit.toNat }))

/-- Go: `GetAll` on the heap: the slice `m.products` itself, read at the time
of the call. -/
def GetAllOnHeap (h : Heap) (products : Slice) : Except String (List Product) :=
  GetAll { products := readSlice h products }

/-! ## Sequences of calls -/

/-- The state a freshly constructed service reaches through a sequence of
`AddProductToList` calls, successful or failing, given by their arguments. -/
def runCalls (calls : List (Int × Unit)) : ShoppingService :=
  calls.foldl (fun s call => (AddProductToList s call.1 call.2).1) newShoppingService

/-- A product with its usage counter set back to zero. -/
def resetUsage (p : Product) : Product :=
  { p with UsageCount := 0 }

/-- The number of shopping-list items that name the product id. -/
def itemsOf (items : List ShoppingItem) (id : Int) : Nat :=
  (items.filter (fun item => decide (item.ProductID = id))).length

/-! ## Lemmas on the repository and the service -/

/-- Within the range of a 64-bit `int` nothing wraps. -/
theorem wrapInt_of_range (x : Int) (hlo : -9223372036854775808 ≤ x)
    (hhi : x ≤ 9223372036854775807) : wrapInt x = x := by
  unfold wrapInt
  omega

theorem slicesContains_iff (s : List Unit) (v : Unit) :
    slicesContains s v = true ↔ v ∈ s := by
  induction s with
  | nil => simp [slicesContains]
  | cons x xs ih =>
    by_cases hx : x = v
    · simp [slicesContains, hx]
    · have hx2 : ¬ v = x := fun h => hx h.symm
      simp [slicesContains, hx, hx2, ih]

/-- What the loop of `FindByID` finds: the first element with the id. -/
theorem findFrom_some (id : Int) (ps : List Product) (k : Nat) (ptr : ProductPtr)
    (h : findFrom id ps k = some ptr) :
    ∃ pre post, ps = pre ++ ptr.target :: post ∧ ptr.index = k + pre.length ∧
      ptr.target.ID = id ∧ ∀ q ∈ pre, q.ID ≠ id := by
  induction ps generalizing k with
  | nil => simp [findFrom] at h
  | cons p ps ih =>
    by_cases hp : p.ID = id
    · simp [findFrom, hp] at h
      subst h
      exact ⟨[], ps, by simp, by simp, hp, by simp⟩
    · simp [findFrom, hp] at h
      obtain ⟨pre, post, h1, h2, h3, h4⟩ := ih (k + 1) h
      refine ⟨p :: pre, post, by simp [h1], by simp [h2]; omega, h3, ?_⟩
      intro q hq
      rcases List.mem_cons.1 hq with rfl | hq
      · exact hp
      · exact h4 q hq

theorem findFrom_none (id : Int) (ps : List Product) (k : Nat) :
    findFrom id ps k = none ↔ ∀ q ∈ ps, q.ID ≠ id := by
  induction ps generalizing k with
  | nil => simp [findFrom]
  | cons p ps ih =>
    by_cases hp : p.ID = id
    · simp [findFrom, hp]
    · simp [findFrom, hp, ih]

/-- The loop of `FindByID` on a list whose first element with the id is known. -/
theorem findFrom_split (id : Int) (pre post : List Product) (p : Product) (k : Nat)
    (hpre : ∀ q ∈ pre, q.ID ≠ id) (hp : p.ID = id) :
    findFrom id (pre ++ p :: post) k = some ⟨k + pre.length, p⟩ := by
  induction pre generalizing k with
  | nil => simp [findFrom, hp]
  | cons q pre ih =>
    have hq : q.ID ≠ id := hpre q (by simp)
    have := ih (k + 1) (fun r hr => hpre r (by simp [hr]))
    simp [findFrom, hq, this]
    omega

theorem incrementUsage_split (pre post : List Product) (p : Product) :
    incrementUsage (pre ++ p :: post) pre.length =
      pre ++ { p with UsageCount := wrapInt (p.UsageCount + 1) } :: post := by
  induction pre with
  | nil => simp [incrementUsage]
  | cons q pre ih => simp [incrementUsage, ih]

/-- `FindByID` succeeds exactly on a catalog that splits at the first product
with the id. -/
theorem FindByID_ok_iff (m : MockProductRepository) (id : Int) (ptr : ProductPtr) :
    FindByID m id = .ok ptr ↔
      ∃ pre post, m.products = pre ++ ptr.target :: post ∧ ptr.index = pre.length ∧
        ptr.target.ID = id ∧ ∀ q ∈ pre, q.ID ≠ id := by
  constructor
  · intro h
    unfold FindByID at h
    cases hf : findFrom id m.products 0 with
    | none => simp [hf] at h
    | some found =>
      simp [hf] at h
      subst h
      obtain ⟨pre, post, h1, h2, h3, h4⟩ := findFrom_some id m.products 0 found hf
      exact ⟨pre, post, h1, by simpa using h2, h3, h4⟩
  · rintro ⟨pre, post, h1, h2, h3, h4⟩
    unfold FindByID
    rw [h1, findFrom_split id pre post ptr.target 0 h4 h3]
    cases ptr
    simp at h2 ⊢
    exact h2.symm

theorem FindByID_error_iff (m : MockProductRepository) (id : Int) (msg : String) :
    FindByID m id = .error msg ↔ (msg = notFoundMessage id ∧ ∀ q ∈ m.products, q.ID ≠ id) := by
  unfold FindByID
  cases hf : findFrom id m.products 0 with
  | none =>
    have := (findFrom_none id m.products 0).1 hf
    simp
    constructor
    · intro h; exact ⟨h.symm, this⟩
    · intro h; exact h.1.symm
  | some found =>
    simp
    intro _
    obtain ⟨pre, post, h1, _, h3, _⟩ := findFrom_some id m.products 0 found hf
    exact ⟨found.target, by simp [h1], h3⟩

/-- The outcome of a successful `AddProductToList`, spelled out. -/
theorem AddProductToList_ok (s : ShoppingService) (id : Int) (unit : Unit) (ptr : ProductPtr)
    (h : (AddProductToList s id unit).2 = .ok ptr) :
    ∃ pre p post, s.repo.products = pre ++ p :: post ∧ (∀ q ∈ pre, q.ID ≠ id) ∧ p.ID = id ∧
      unit ∈ p.AvailableUnits ∧
      ptr = ⟨pre.length, { p with UsageCount := wrapInt (p.UsageCount + 1) }⟩ ∧
      AddProductToList s id unit =
        ({ repo := { products := pre ++ { p with UsageCount := wrapInt (p.UsageCount + 1) } :: post },
           shoppingList := s.shoppingList ++ [{ ProductID := id, Quantity := 1, Unit := unit }] },
         .ok ptr) := by
  unfold AddProductToList at h ⊢
  cases hf : FindByID s.repo id with
  | error e => simp [hf] at h
  | ok found =>
    obtain ⟨pre, post, h1, h2, h3, h4⟩ := (FindByID_ok_iff s.repo id found).1 hf
    by_cases hu : slicesContains found.target.AvailableUnits unit = true
    · simp [hf, hu] at h ⊢
      refine ⟨pre, found.target, post, h1, h4, h3, (slicesContains_iff _ _).1 hu, ?_, ?_⟩
      · rw [← h, h2]
      · refine ⟨?_, h⟩
        rw [h2, h1, incrementUsage_split]
    · simp [hf, hu] at h

/-- The outcome of a failing `AddProductToList`, spelled out. -/
theorem AddProductToList_error (s : ShoppingService) (id : Int) (unit : Unit) (err : String)
    (h : (AddProductToList s id unit).2 = .error err) :
    (AddProductToList s id unit).1 = s ∧
      ((err = notFoundMessage id ∧ ∀ q ∈ s.repo.products, q.ID ≠ id) ∨
       (∃ ptr, FindByID s.repo id = .ok ptr ∧ unit ∉ ptr.target.AvailableUnits ∧
          err = invalidUnitMessage ptr.target.Name unit)) := by
  unfold AddProductToList at h ⊢
  cases hf : FindByID s.repo id with
  | error e =>
    simp [hf] at h ⊢
    subst h
    exact (FindByID_error_iff s.repo id e).1 hf
  | ok found =>
    by_cases hu : slicesContains found.target.AvailableUnits unit = true
    · simp [hf, hu] at h
    · simp [hf, hu] at h ⊢
      exact Or.inr ⟨fun hmem => hu ((slicesContains_iff _ _).2 hmem), h.symm⟩

/-! ## Lemmas on the library functions -/

theorem containsChars_iff (substr l : List Char) :
    containsChars substr l = true ↔ substr <:+: l := by
  induction l with
  | nil => simp [containsChars, List.isEmpty_iff]
  | cons c cs ih =>
    simp only [containsChars, Bool.or_eq_true, ih, List.isPrefixOf_iff_prefix,
      List.infix_cons_iff]

theorem usageLess_asymm (a b : Product) (h : usageLess a b = true) : usageLess b a = false := by
  simp [usageLess] at h ⊢
  omega

theorem usageLess_negTrans (a b c : Product) (h1 : usageLess a b = false)
    (h2 : usageLess b c = false) : usageLess a c = false := by
  simp [usageLess] at h1 h2 ⊢
  omega

theorem sinkDown_perm (less : Product → Product → Bool) (x : Product) (l : List Product) :
    (sinkDown less x l).Perm (x :: l) := by
  induction l with
  | nil => simp [sinkDown]
  | cons y before ih =>
    by_cases h : less x y = true
    · simp only [sinkDown, h, if_true]
      exact (List.Perm.cons y ih).trans (List.Perm.swap x y before)
    · simp [sinkDown, h]

theorem sinkDown_sorted (less : Product → Product → Bool)
    (hasymm : ∀ a b, less a b = true → less b a = false)
    (htrans : ∀ a b c, less a b = false → less b c = false → less a c = false)
    (x : Product) (l : List Product) (hl : l.Pairwise (fun y z => less y z = false)) :
    (sinkDown less x l).Pairwise (fun y z => less y z = false) := by
  induction l with
  | nil => simp [sinkDown]
  | cons y before ih =>
    obtain ⟨hy, hbefore⟩ := List.pairwise_cons.1 hl
    by_cases h : less x y = true
    · simp only [sinkDown, h, if_true]
      refine List.pairwise_cons.2 ⟨?_, ih hbefore⟩
      intro z hz
      rcases List.mem_cons.1 ((sinkDown_perm less x before).mem_iff.1 hz) with rfl | hz
      · exact hasymm _ _ h
      · exact hy z hz
    · have hxy : less x y = false := by simpa using h
      simp only [sinkDown, h]
      refine List.pairwise_cons.2 ⟨?_, hl⟩
      intro z hz
      rcases List.mem_cons.1 hz with rfl | hz
      · exact hxy
      · exact htrans _ _ _ hxy (hy z hz)

theorem insertionLoop_spec (less : Product → Product → Bool)
    (hasymm : ∀ a b, less a b = true → less b a = false)
    (htrans : ∀ a b c, less a b = false → less b c = false → less a c = false)
    (rest done : List Product) (hdone : done.Pairwise (fun y z => less y z = false)) :
    (insertionLoop less done rest).Perm (done.reverse ++ rest) ∧
      (insertionLoop less done rest).Pairwise (fun x y => less y x = false) := by
  induction rest generalizing done with
  | nil =>
    simp only [insertionLoop, List.append_nil]
    exact ⟨List.Perm.refl _, List.pairwise_reverse.2 hdone⟩
  | cons x rest ih =>
    obtain ⟨h1, h2⟩ := ih (sinkDown less x done) (sinkDown_sorted less hasymm htrans x done hdone)
    refine ⟨?_, h2⟩
    simp only [insertionLoop]
    refine h1.trans ?_
    have hp : (sinkDown less x done).reverse.Perm (done.reverse ++ [x]) := by
      refine (List.reverse_perm _).trans ((sinkDown_perm less x done).trans ?_)
      refine (List.perm_append_singleton x done).symm.trans ?_
      exact List.Perm.append_right _ (List.reverse_perm done).symm
    have := List.Perm.append_right rest hp
    simpa using this

/-- The insertion sort of the Go library meets the contract of `sort.Slice`. -/
theorem insertionSortLessFunc_spec : SortSliceSpec insertionSortLessFunc := by
  intro less hasymm htrans data
  have := insertionLoop_spec less hasymm htrans data [] List.Pairwise.nil
  simpa [insertionSortLessFunc] using this

/-- Equality after folding meets the contract of `strings.EqualFold`. -/
theorem equalFoldLatin_spec : EqualFoldSpec equalFoldLatin := by
  refine ⟨?_, ?_⟩
  · intro s t h
    simp only [equalFoldLatin, beq_iff_eq] at h ⊢
    exact h.symm
  · intro s t u h1 h2
    simp only [equalFoldLatin, beq_iff_eq] at h1 h2 ⊢
    exact h1.trans h2

/-- The value of `GetMostUsed` for a limit that is not negative. -/
theorem GetMostUsed_nonneg (sortSlice : (Product → Product → Bool) → List Product → List Product)
    (hsort : SortSliceSpec sortSlice) (m : MockProductRepository) (n : Int) (hn : 0 ≤ n) :
    GetMostUsed sortSlice m n =
      some (.ok ((sortSlice usageLess m.products).take (min n.toNat m.products.length))) := by
  have hlen : (sortSlice usageLess m.products).length = m.products.length :=
    (hsort usageLess usageLess_asymm usageLess_negTrans m.products).1.length_eq
  unfold GetMostUsed
  simp only [hlen]
  by_cases h : n > (m.products.length : Int)
  · have h0 : ¬ ((m.products.length : Int) < 0) := by omega
    have hmin : min n.toNat m.products.length = m.products.length := by omega
    simp [h, hmin]
  · have h0 : ¬ (n < 0) := by omega
    have hmin : min n.toNat m.products.length = n.toNat := by omega
    simp [h, h0, hmin]

theorem filterCategory_eq (EqualFold : String → String → Bool) (category : String)
    (ps filtered : List Product) :
    filterCategory EqualFold category ps filtered =
      filtered ++ ps.filter (fun p => EqualFold p.Category category) := by
  induction ps generalizing filtered with
  | nil => simp [filterCategory]
  | cons p ps ih =>
    by_cases h : EqualFold p.Category category = true
    · simp [filterCategory, h, ih]
    · simp [filterCategory, h, ih]

/-- With limit 1, `GetMostUsed` returns the one product whose usage count is
above that of all the others. -/
theorem GetMostUsed_one (sortSlice : (Product → Product → Bool) → List Product → List Product)
    (hsort : SortSliceSpec sortSlice) (pre post : List Product) (top : Product)
    (hothers : ∀ q ∈ pre ++ post, q.UsageCount < top.UsageCount) :
    GetMostUsed sortSlice { products := pre ++ top :: post } 1 = some (.ok [top]) := by
  rw [GetMostUsed_nonneg sortSlice hsort _ 1 (by omega)]
  obtain ⟨hperm, hsorted⟩ := hsort usageLess usageLess_asymm usageLess_negTrans
    (pre ++ top :: post)
  have hmin : min (1 : Int).toNat (pre ++ top :: post).length = 1 := by
    simp
    omega
  simp only [hmin]
  cases hs : sortSlice usageLess (pre ++ top :: post) with
  | nil =>
    rw [hs] at hperm
    have := hperm.length_eq
    simp at this
    omega
  | cons first others =>
    rw [hs] at hperm hsorted
    have hfirst : first ∈ pre ++ top :: post := hperm.mem_iff.1 (by simp)
    have htop : top ∈ first :: others := hperm.mem_iff.2 (by simp)
    have heq : first = top := by
      rcases List.mem_cons.1 htop with h | h
      · exact h.symm
      · have hle := (List.pairwise_cons.1 hsorted).1 top h
        simp only [usageLess, decide_eq_false_iff_not, not_lt] at hle
        rcases List.mem_append.1 hfirst with h1 | h1
        · have := hothers first (by simp [h1])
          omega
        · rcases List.mem_cons.1 h1 with h2 | h2
          · exact h2
          · have := hothers first (by simp [h2])
            omega
    simp [heq]

/-! ## AddProductToList -/

/-- In every state `AddProductToList id unit` succeeds exactly when the first
catalog product with the id, the one `FindByID` resolves, allows the unit. -/
theorem AddProductToList_ok_iff_first (s : ShoppingService) (id : Int) (unit : Unit) :
    (∃ ptr, (AddProductToList s id unit).2 = .ok ptr) ↔
      ∃ pre p post, s.repo.products = pre ++ p :: post ∧ (∀ q ∈ pre, q.ID ≠ id) ∧
        p.ID = id ∧ unit ∈ p.AvailableUnits := by
  constructor
  · rintro ⟨ptr, h⟩
    obtain ⟨pre, p, post, h1, h2, h3, h4, _, _⟩ := AddProductToList_ok s id unit ptr h
    exact ⟨pre, p, post, h1, h2, h3, h4⟩
  · rintro ⟨pre, p, post, h1, h2, h3, h4⟩
    have hf : FindByID s.repo id = .ok ⟨pre.length, p⟩ :=
      (FindByID_ok_iff s.repo id ⟨pre.length, p⟩).2 ⟨pre, post, h1, rfl, h3, h2⟩
    have hu : slicesContains p.AvailableUnits unit = true := (slicesContains_iff _ _).2 h4
    refine ⟨⟨pre.length, { p with UsageCount := wrapInt (p.UsageCount + 1) }⟩, ?_⟩
    simp [AddProductToList, hf, hu]

/-- In a state whose product ids are pairwise distinct `AddProductToList id unit`
succeeds exactly when the catalog holds a product with the id that allows the
unit. -/
theorem AddProductToList_ok_iff_mem (s : ShoppingService) (id : Int) (unit : Unit)
    (hnd : (s.repo.products.map (fun p => p.ID)).Nodup) :
    (∃ ptr, (AddProductToList s id unit).2 = .ok ptr) ↔
      ∃ p ∈ s.repo.products, p.ID = id ∧ unit ∈ p.AvailableUnits := by
  rw [AddProductToList_ok_iff_first]
  constructor
  · rintro ⟨pre, p, post, h1, _, h3, h4⟩
    exact ⟨p, by simp [h1], h3, h4⟩
  · rintro ⟨p, hp, h3, h4⟩
    cases hf : FindByID s.repo id with
    | error e =>
      exact absurd h3 (((FindByID_error_iff s.repo id e).1 hf).2 p hp)
    | ok found =>
      obtain ⟨pre, post, h1, _, g3, g4⟩ := (FindByID_ok_iff s.repo id found).1 hf
      refine ⟨pre, found.target, post, h1, g4, g3, ?_⟩
      have hmem : found.target ∈ s.repo.products := by rw [h1]; simp
      have heq : found.target = p :=
        List.inj_on_of_nodup_map hnd hmem hp (by rw [g3, h3])
      rw [heq]; exact h4

/-- C2, as stated, fails on the code: in `usageAtMaxInt` the product ids are
pairwise distinct and `AddProductToList 1 "l"` succeeds, `FindByID 1` reports
the usage count `9223372036854775807` before the call and
`-9223372036854775808` after it, because `product.UsageCount++` wraps around
at the largest `int`; the count after is not one more than the count before. -/
theorem AddProductToList_usage_wraps :
    (usageAtMaxInt.repo.products.map (fun p => p.ID)).Nodup ∧
    (∃ ptr, (AddProductToList usageAtMaxInt 1 "l").2 = .ok ptr) ∧
    (FindByID usageAtMaxInt.repo 1).map (fun ptr => ptr.target.UsageCount) =
      .ok 9223372036854775807 ∧
    (FindByID (AddProductToList usageAtMaxInt 1 "l").1.repo 1).map
      (fun ptr => ptr.target.UsageCount) = .ok (-9223372036854775808) ∧
    ¬ ∃ before after, FindByID usageAtMaxInt.repo 1 = .ok before ∧
      FindByID (AddProductToList usageAtMaxInt 1 "l").1.repo 1 = .ok after ∧
      after.target.UsageCount = before.target.UsageCount + 1 := by
  refine ⟨by decide, ⟨_, rfl⟩, by decide, by decide, ?_⟩
  rintro ⟨before, after, h1, h2, h3⟩
  have e1 : FindByID usageAtMaxInt.repo 1 =
      .ok ⟨0, ⟨1, "Mleko", "nabiał", ["l", "ml"], 9223372036854775807⟩⟩ := by decide
  have e2 : FindByID (AddProductToList usageAtMaxInt 1 "l").1.repo 1 =
      .ok ⟨0, ⟨1, "Mleko", "nabiał", ["l", "ml"], -9223372036854775808⟩⟩ := by decide
  rw [e1] at h1
  rw [e2] at h2
  cases h1
  cases h2
  simp at h3

/-- C2, amended: whenever `AddProductToList id unit` succeeds, the shopping
list is exactly one item longer, and the usage count that `FindByID id` reports
afterwards is the 64-bit `int` successor of the one it reported before the
call: exactly one more when the count before is an `int` below the largest
`int`, `2^63 - 1`.  (This holds in every state; pairwise distinct product ids
are not needed.) -/
theorem AddProductToList_usage_and_length (s : ShoppingService) (id : Int) (unit : Unit)
    (ptr : ProductPtr) (h : (AddProductToList s id unit).2 = .ok ptr) :
    ∃ before after, FindByID s.repo id = .ok before ∧
      FindByID (AddProductToList s id unit).1.repo id = .ok after ∧
      after.target.UsageCount = wrapInt (before.target.UsageCount + 1) ∧
      (-9223372036854775808 ≤ before.target.UsageCount →
        before.target.UsageCount < maxInt →
        after.target.UsageCount = before.target.UsageCount + 1) ∧
      (AddProductToList s id unit).1.shoppingList.length = s.shoppingList.length + 1 := by
  obtain ⟨pre, p, post, h1, h2, h3, _, _, h6⟩ := AddProductToList_ok s id unit ptr h
  refine ⟨⟨pre.length, p⟩,
    ⟨pre.length, { p with UsageCount := wrapInt (p.UsageCount + 1) }⟩, ?_, ?_, rfl, ?_, ?_⟩
  · exact (FindByID_ok_iff s.repo id _).2 ⟨pre, post, h1, rfl, h3, h2⟩
  · rw [h6]
    exact (FindByID_ok_iff _ id _).2 ⟨pre, post, rfl, rfl, h3, h2⟩
  · intro hlo hhi
    simp only [maxInt] at hlo hhi ⊢
    exact wrapInt_of_range _ (by omega) (by omega)
  · rw [h6]; simp

theorem AddProductToList_usage_and_length_witness :
    (AddProductToList newShoppingService 1 "l").2 =
      .ok ⟨0, ⟨1, "Mleko", "nabiał", ["l", "ml"], 1⟩⟩ ∧
    ∃ before after, FindByID newShoppingService.repo 1 = .ok before ∧
      FindByID (AddProductToList newShoppingService 1 "l").1.repo 1 = .ok after ∧
      after.target.UsageCount = wrapInt (before.target.UsageCount + 1) ∧
      (-9223372036854775808 ≤ before.target.UsageCount →
        before.target.UsageCount < maxInt →
        after.target.UsageCount = before.target.UsageCount + 1) ∧
      (AddProductToList newShoppingService 1 "l").1.shoppingList.length =
        newShoppingService.shoppingList.length + 1 :=
  ⟨by decide, AddProductToList_usage_and_length newShoppingService 1 "l" _ rfl⟩

/-- C4: whenever `AddProductToList id unit` fails (the id is unknown, or the
unit is not allowed for the product), the state after the call is the state
before it: the same shopping list and the same catalog, usage counts included. -/
theorem AddProductToList_failure_unchanged (s : ShoppingService) (id : Int) (unit : Unit)
    (err : String) (h : (AddProductToList s id unit).2 = .error err) :
    (AddProductToList s id unit).1 = s ∧
    (AddProductToList s id unit).1.shoppingList = s.shoppingList ∧
    (AddProductToList s id unit).1.repo.products = s.repo.products := by
  have := (AddProductToList_error s id unit err h).1
  rw [this]
  exact ⟨rfl, rfl, rfl⟩

theorem AddProductToList_failure_unchanged_witness :
    (AddProductToList newShoppingService 1 "kg").2 =
      .error "produkt Mleko nie jest dostępny w jednostce kg" ∧
    (AddProductToList newShoppingService 999 "l").2 =
      .error "produkt o ID 999 nie został znaleziony" ∧
    (AddProductToList newShoppingService 1 "kg").1 = newShoppingService ∧
    (AddProductToList newShoppingService 999 "l").1 = newShoppingService :=
  ⟨by decide, by decide,
   (AddProductToList_failure_unchanged newShoppingService 1 "kg" _ rfl).1,
   (AddProductToList_failure_unchanged newShoppingService 999 "l" _ rfl).1⟩

/-- C10: whenever `AddProductToList productID unit` succeeds, the new shopping
list is the old list with one item appended at the end, the item
`{ProductID: productID, Quantity: 1, Unit: unit}`; the earlier items keep
their position and contents. -/
theorem AddProductToList_appends (s : ShoppingService) (productID : Int) (unit : Unit)
    (ptr : ProductPtr) (h : (AddProductToList s productID unit).2 = .ok ptr) :
    (AddProductToList s productID unit).1.shoppingList =
      s.shoppingList ++ [{ ProductID := productID, Quantity := 1, Unit := unit }] ∧
    ∀ i (hi : i < s.shoppingList.length),
      (AddProductToList s productID unit).1.shoppingList[i]? = some s.shoppingList[i] := by
  obtain ⟨pre, p, post, _, _, _, _, _, h6⟩ := AddProductToList_ok s productID unit ptr h
  rw [h6]
  refine ⟨rfl, ?_⟩
  intro i hi
  simp [List.getElem?_append_left hi]

theorem AddProductToList_appends_witness :
    (AddProductToList (AddProductToList newShoppingService 4 "kg").1 1 "ml").2 =
      .ok ⟨0, ⟨1, "Mleko", "nabiał", ["l", "ml"], 1⟩⟩ ∧
    (AddProductToList (AddProductToList newShoppingService 4 "kg").1 1 "ml").1.shoppingList =
      (AddProductToList newShoppingService 4 "kg").1.shoppingList ++
        [{ ProductID := 1, Quantity := 1, Unit := "ml" }] :=
  ⟨by decide,
   (AddProductToList_appends (AddProductToList newShoppingService 4 "kg").1 1 "ml" _ rfl).1⟩

/-! ## FindByID -/

/-- C5: `FindByID id` returns a product without error exactly when some catalog
product has that id; the product returned has `ID = id` and is the first such
product in catalog order; otherwise it returns an error whose message contains
the decimal form of the id.  On the seeded catalog it returns "Mleko" for id 1
and an error for every id outside 1..6, such as 999. -/
theorem FindByID_spec (m : MockProductRepository) (id : Int) :
    ((∃ ptr, FindByID m id = .ok ptr) ↔ ∃ p ∈ m.products, p.ID = id) ∧
    (∀ ptr, FindByID m id = .ok ptr →
      ptr.target.ID = id ∧
      ∃ pre post, m.products = pre ++ ptr.target :: post ∧ ptr.index = pre.length ∧
        ∀ q ∈ pre, q.ID ≠ id) ∧
    ((¬ ∃ p ∈ m.products, p.ID = id) →
      ∃ msg, FindByID m id = .error msg ∧ (toString id).data <:+: msg.data) ∧
    (∃ ptr, FindByID NewMockProductRepository 1 = .ok ptr ∧ ptr.target.Name = "Mleko") ∧
    ((¬ (1 ≤ id ∧ id ≤ 6)) → ∃ msg, FindByID NewMockProductRepository id = .error msg) ∧
    (∃ msg, FindByID NewMockProductRepository 999 = .error msg) := by
  have hnone : (∀ q ∈ m.products, q.ID ≠ id) →
      FindByID m id = .error (notFoundMessage id) :=
    fun h => (FindByID_error_iff m id _).2 ⟨rfl, h⟩
  refine ⟨?_, ?_, ?_, ⟨_, rfl, rfl⟩, ?_, ⟨_, rfl⟩⟩
  · constructor
    · rintro ⟨ptr, h⟩
      obtain ⟨pre, post, h1, _, h3, _⟩ := (FindByID_ok_iff m id ptr).1 h
      exact ⟨ptr.target, by simp [h1], h3⟩
    · rintro ⟨p, hp, hid⟩
      cases hf : FindByID m id with
      | ok ptr => exact ⟨ptr, rfl⟩
      | error e => exact absurd hid (((FindByID_error_iff m id e).1 hf).2 p hp)
  · intro ptr h
    obtain ⟨pre, post, h1, h2, h3, h4⟩ := (FindByID_ok_iff m id ptr).1 h
    exact ⟨h3, pre, post, h1, h2, h4⟩
  · intro hno
    refine ⟨notFoundMessage id, hnone (fun q hq hid => hno ⟨q, hq, hid⟩), ?_⟩
    refine ⟨"produkt o ID ".data, " nie został znaleziony".data, ?_⟩
    simp [notFoundMessage, String.data_append]
  · intro hout
    refine ⟨notFoundMessage id, (FindByID_error_iff _ id _).2 ⟨rfl, ?_⟩⟩
    intro q hq
    simp [NewMockProductRepository] at hq
    rcases hq with h | h | h | h | h | h <;> subst h <;> simp <;> omega

theorem FindByID_spec_witness :
    (¬ ∃ p ∈ NewMockProductRepository.products, p.ID = 999) ∧
    ∃ msg, FindByID NewMockProductRepository 999 = .error msg ∧
      (toString (999 : Int)).data <:+: msg.data :=
  ⟨by decide, (FindByID_spec NewMockProductRepository 999).2.2.1 (by decide)⟩

/-! ## GetMostUsed -/

/-- C6: for every catalog and every limit `n ≥ 0`, `GetMostUsed n` returns
exactly `min n (catalog size)` products, and the usage counts of the returned
products do not increase from first to last.  (`sort.Slice` enters through its
contract.) -/
theorem GetMostUsed_length_sorted
    (sortSlice : (Product → Product → Bool) → List Product → List Product)
    (hsort : SortSliceSpec sortSlice) (m : MockProductRepository) (n : Int) (hn : 0 ≤ n) :
    ∃ out, GetMostUsed sortSlice m n = some (.ok out) ∧
      (out.length : Int) = min n (m.products.length : Int) ∧
      out.Pairwise (fun a b => a.UsageCount ≥ b.UsageCount) := by
  obtain ⟨hperm, hsorted⟩ := hsort usageLess usageLess_asymm usageLess_negTrans m.products
  refine ⟨_, GetMostUsed_nonneg sortSlice hsort m n hn, ?_, ?_⟩
  · rw [List.length_take, hperm.length_eq]
    omega
  · refine List.Pairwise.sublist (List.take_sublist _ _) (hsorted.imp ?_)
    intro a b hab
    simp only [usageLess, decide_eq_false_iff_not, not_lt] at hab
    exact hab

theorem GetMostUsed_length_sorted_witness :
    SortSliceSpec insertionSortLessFunc ∧ (0 : Int) ≤ 3 ∧
    ∃ out, GetMostUsed insertionSortLessFunc
        (AddProductToList (AddProductToList newShoppingService 4 "kg").1 2 "g").1.repo 3 =
          some (.ok out) ∧
      (out.length : Int) = min 3
        ((AddProductToList (AddProductToList newShoppingService 4 "kg").1 2 "g").1.repo.products.length
          : Int) ∧
      out.Pairwise (fun a b => a.UsageCount ≥ b.UsageCount) :=
  ⟨insertionSortLessFunc_spec, by decide,
   GetMostUsed_length_sorted insertionSortLessFunc insertionSortLessFunc_spec
     (AddProductToList (AddProductToList newShoppingService 4 "kg").1 2 "g").1.repo 3
     (by decide)⟩

/-- C7: for every catalog and every limit `n ≥ 0`, the result of `GetMostUsed n`
is a prefix of a permutation of the catalog: the result followed by some list
`rest` is a permutation of the catalog, so each returned product is a catalog
product and no catalog entry is returned more often than it occurs; every
product of `rest` has a usage count at most that of every returned product; and
with `n ≥` catalog size the result is a permutation of the whole catalog. -/
theorem GetMostUsed_prefix_of_perm
    (sortSlice : (Product → Product → Bool) → List Product → List Product)
    (hsort : SortSliceSpec sortSlice) (m : MockProductRepository) (n : Int) (hn : 0 ≤ n) :
    ∃ out rest, GetMostUsed sortSlice m n = some (.ok out) ∧
      (out ++ rest).Perm m.products ∧
      (∀ p ∈ out, p ∈ m.products) ∧
      out.Subperm m.products ∧
      (∀ a ∈ out, ∀ b ∈ rest, b.UsageCount ≤ a.UsageCount) ∧
      ((m.products.length : Int) ≤ n → out.Perm m.products) := by
  obtain ⟨hperm, hsorted⟩ := hsort usageLess usageLess_asymm usageLess_negTrans m.products
  refine ⟨_, (sortSlice usageLess m.products).drop (min n.toNat m.products.length),
    GetMostUsed_nonneg sortSlice hsort m n hn, ?_, ?_, ?_, ?_, ?_⟩
  · rw [List.take_append_drop]
    exact hperm
  · intro p hp
    exact hperm.mem_iff.1 (List.mem_of_mem_take hp)
  · exact (List.take_sublist _ _).subperm.trans hperm.subperm
  · intro a ha b hb
    have hsplit := hsorted
    rw [← List.take_append_drop (min n.toNat m.products.length)
      (sortSlice usageLess m.products)] at hsplit
    have := (List.pairwise_append.1 hsplit).2.2 a ha b hb
    simp only [usageLess, decide_eq_false_iff_not, not_lt] at this
    exact this
  · intro hle
    have hmin : min n.toNat m.products.length = m.products.length := by omega
    rw [hmin, List.take_of_length_le (by rw [hperm.length_eq])]
    exact hperm

theorem GetMostUsed_prefix_of_perm_witness :
    SortSliceSpec insertionSortLessFunc ∧ (0 : Int) ≤ 2 ∧
    ∃ out rest, GetMostUsed insertionSortLessFunc
        (AddProductToList newShoppingService 5 "kg").1.repo 2 = some (.ok out) ∧
      (out ++ rest).Perm (AddProductToList newShoppingService 5 "kg").1.repo.products ∧
      (∀ p ∈ out, p ∈ (AddProductToList newShoppingService 5 "kg").1.repo.products) ∧
      out.Subperm (AddProductToList newShoppingService 5 "kg").1.repo.products ∧
      (∀ a ∈ out, ∀ b ∈ rest, b.UsageCount ≤ a.UsageCount) ∧
      ((((AddProductToList newShoppingService 5 "kg").1.repo.products.length : Nat) : Int) ≤ 2 →
        out.Perm (AddProductToList newShoppingService 5 "kg").1.repo.products) :=
  ⟨insertionSortLessFunc_spec, by decide,
   GetMostUsed_prefix_of_perm insertionSortLessFunc insertionSortLessFunc_spec
     (AddProductToList newShoppingService 5 "kg").1.repo 2 (by decide)⟩

/-- C9: on a freshly constructed service, after one successful
`AddProductToList id unit`, `FindByID id` reports usage count 1 and
`GetMostUsed 1` returns exactly the product with that id.  (`sort.Slice` enters
through its contract.) -/
theorem usage_visible_after_add
    (sortSlice : (Product → Product → Bool) → List Product → List Product)
    (hsort : SortSliceSpec sortSlice) (id : Int) (unit : Unit) (ptr : ProductPtr)
    (h : (AddProductToList newShoppingService id unit).2 = .ok ptr) :
    ∃ found, FindByID (AddProductToList newShoppingService id unit).1.repo id = .ok found ∧
      found.target.ID = id ∧ found.target.UsageCount = 1 ∧
      GetMostUsed sortSlice (AddProductToList newShoppingService id unit).1.repo 1 =
        some (.ok [found.target]) := by
  obtain ⟨pre, p, post, h1, h2, h3, _, _, h6⟩ :=
    AddProductToList_ok newShoppingService id unit ptr h
  have hzero : ∀ q ∈ newShoppingService.repo.products, q.UsageCount = 0 := by decide
  have hp : p.UsageCount = 0 := hzero p (by simp [h1])
  have hone : wrapInt (p.UsageCount + 1) = 1 := by rw [hp]; decide
  refine ⟨⟨pre.length, { p with UsageCount := wrapInt (p.UsageCount + 1) }⟩, ?_, h3, hone, ?_⟩
  · rw [h6]
    exact (FindByID_ok_iff _ id _).2 ⟨pre, post, rfl, rfl, h3, h2⟩
  · rw [h6]
    apply GetMostUsed_one sortSlice hsort
    intro q hq
    have hq0 : q.UsageCount = 0 := by
      apply hzero q
      rw [h1]
      rcases List.mem_append.1 hq with hq | hq
      · simp [hq]
      · simp [hq]
    simp [hq0, hone]

theorem usage_visible_after_add_witness :
    SortSliceSpec insertionSortLessFunc ∧
    (AddProductToList newShoppingService 3 "g").2 =
      .ok ⟨2, ⟨3, "Jogurt naturalny", "nabiał", ["szt.", "g"], 1⟩⟩ ∧
    ∃ found, FindByID (AddProductToList newShoppingService 3 "g").1.repo 3 = .ok found ∧
      found.target.ID = 3 ∧ found.target.UsageCount = 1 ∧
      GetMostUsed insertionSortLessFunc (AddProductToList newShoppingService 3 "g").1.repo 1 =
        some (.ok [found.target]) :=
  ⟨insertionSortLessFunc_spec, by decide,
   usage_visible_after_add insertionSortLessFunc insertionSortLessFunc_spec 3 "g" _ rfl⟩

/-! ## GetByCategory -/

/-- C8: `GetByCategory` is case-insensitive: two category strings that are equal
under case folding give the same result; the result is, without error, exactly
the catalog products whose category is equal to the query under case folding,
in catalog order; and for a category that matches no product it is the empty
sequence, without error.  (`strings.EqualFold` enters through its contract.) -/
theorem GetByCategory_case_insensitive (EqualFold : String → String → Bool)
    (hfold : EqualFoldSpec EqualFold) (m : MockProductRepository) (c1 c2 : String) :
    (EqualFold c1 c2 = true → GetByCategory EqualFold m c1 = GetByCategory EqualFold m c2) ∧
    GetByCategory EqualFold m c1 =
      .ok (m.products.filter (fun p => EqualFold p.Category c1)) ∧
    ((∀ p ∈ m.products, EqualFold p.Category c1 = false) →
      GetByCategory EqualFold m c1 = .ok []) := by
  refine ⟨?_, ?_, ?_⟩
  · intro h
    simp only [GetByCategory, filterCategory_eq, List.nil_append]
    congr 1
    apply List.filter_congr
    intro p _
    cases h1 : EqualFold p.Category c1 with
    | true => exact (hfold.2 _ _ _ h1 h).symm
    | false =>
      cases h2 : EqualFold p.Category c2 with
      | false => rfl
      | true =>
        have := hfold.2 _ _ _ h2 (hfold.1 _ _ h)
        rw [h1] at this
        exact this
  · simp [GetByCategory, filterCategory_eq]
  · intro hno
    simp only [GetByCategory, filterCategory_eq, List.nil_append]
    congr 1
    exact List.filter_eq_nil_iff.2 (fun p hp => by simp [hno p hp])

theorem GetByCategory_case_insensitive_witness :
    EqualFoldSpec equalFoldLatin ∧ equalFoldLatin "NABIAŁ" "nabiał" = true ∧
    GetByCategory equalFoldLatin NewMockProductRepository "NABIAŁ" =
      GetByCategory equalFoldLatin NewMockProductRepository "nabiał" ∧
    (GetByCategory equalFoldLatin NewMockProductRepository "NABIAŁ").map
      (fun ps => ps.map (fun p => p.ID)) = .ok [1, 2, 3] :=
  ⟨equalFoldLatin_spec, by decide,
   (GetByCategory_case_insensitive equalFoldLatin equalFoldLatin_spec
      NewMockProductRepository "NABIAŁ" "nabiał").1 (by decide),
   by decide⟩

/-! ## handleAddItem -/

/-- A POST whose body names no catalog product is answered with status 404 and
the not-found message, and leaves the state as it was. -/
theorem handleAddItem_unknown_id (s : ShoppingService) (req : ShoppingItem)
    (hno : ∀ q ∈ s.repo.products, q.ID ≠ req.ProductID) :
    handleAddItem s { Method := "POST", Body := some req } =
      (s, respondWithError 404 (notFoundMessage req.ProductID)) := by
  have hf : FindByID s.repo req.ProductID = .error (notFoundMessage req.ProductID) :=
    (FindByID_error_iff _ _ _).2 ⟨rfl, hno⟩
  have hc : stringsContains (notFoundMessage req.ProductID) "nie został znaleziony" = true := by
    unfold stringsContains
    rw [containsChars_iff]
    refine ⟨("produkt o ID " ++ toString req.ProductID ++ " ").data, [], ?_⟩
    simp [notFoundMessage, String.data_append]
  simp [handleAddItem, AddProductToList, hf, hc]

/-- C3 fails on the code: the POST body `{"ProductID": 1, "Unit": "nie został
znaleziony"}` names product 1 of the seeded catalog and a unit that is not
among its available units, and the response status is 404, not 400: the
invalid-unit message quotes the unit, and the handler takes every message that
contains "nie został znaleziony" for a not-found error. -/
theorem handleAddItem_invalid_unit_404 :
    (∃ p ∈ newShoppingService.repo.products,
      p.ID = 1 ∧ "nie został znaleziony" ∉ p.AvailableUnits) ∧
    (handleAddItem newShoppingService
      { Method := "POST",
        Body := some { ProductID := 1, Quantity := 1, Unit := "nie został znaleziony" } }).2 =
      respondWithError 404
        "produkt Mleko nie jest dostępny w jednostce nie został znaleziony" := by
  refine ⟨⟨⟨1, "Mleko", "nabiał", [Liter, Mililiter], 0⟩, by decide, by decide, by decide⟩, ?_⟩
  decide

/-! ## States reached by sequences of calls -/

/-- A property of the fresh service that every call of `AddProductToList`
preserves holds after every sequence of calls. -/
theorem runCalls_induction (P : ShoppingService → Prop) (h0 : P newShoppingService)
    (hstep : ∀ s id unit, P s → P (AddProductToList s id unit).1)
    (calls : List (Int × Unit)) : P (runCalls calls) := by
  have gen : ∀ (cs : List (Int × Unit)) (s : ShoppingService), P s →
      P (cs.foldl (fun s call => (AddProductToList s call.1 call.2).1) s) := by
    intro cs
    induction cs with
    | nil => intro s hs; exact hs
    | cons c cs ih => intro s hs; exact ih _ (hstep s c.1 c.2 hs)
  exact gen calls newShoppingService h0

/-- A call either fails and leaves the state, or succeeds. -/
theorem AddProductToList_fails_or_ok (s : ShoppingService) (id : Int) (unit : Unit) :
    (AddProductToList s id unit).1 = s ∨ ∃ ptr, (AddProductToList s id unit).2 = .ok ptr := by
  cases h : (AddProductToList s id unit).2 with
  | error e => exact Or.inl (AddProductToList_error s id unit e h).1
  | ok ptr => exact Or.inr ⟨ptr, rfl⟩

theorem getElem?_split_ne (pre post : List Product) (a b : Product) (i : Nat)
    (hi : i ≠ pre.length) : (pre ++ a :: post)[i]? = (pre ++ b :: post)[i]? := by
  induction pre generalizing i with
  | nil =>
    cases i with
    | zero => simp at hi
    | succ j => simp
  | cons x pre ih =>
    cases i with
    | zero => simp
    | succ j =>
      have hj : j ≠ pre.length := fun h => hi (by simp [h])
      simpa using ih j hj

theorem getElem?_split_eq (pre post : List Product) (a : Product) :
    (pre ++ a :: post)[pre.length]? = some a := by
  induction pre with
  | nil => simp
  | cons x pre ih => simpa using ih

/-- Apart from the usage counters a call leaves the catalog as it is. -/
theorem AddProductToList_resetUsage (s : ShoppingService) (id : Int) (unit : Unit) :
    (AddProductToList s id unit).1.repo.products.map resetUsage =
      s.repo.products.map resetUsage := by
  rcases AddProductToList_fails_or_ok s id unit with h | ⟨ptr, h⟩
  · rw [h]
  · obtain ⟨pre, p, post, h1, _, _, _, _, h6⟩ := AddProductToList_ok s id unit ptr h
    rw [h6, h1]
    simp [resetUsage]

theorem ids_of_resetUsage (ps : List Product) :
    ps.map (fun p => p.ID) = (ps.map resetUsage).map (fun p => p.ID) := by
  simp [List.map_map, Function.comp, resetUsage]

/-- A catalog that is the seeded one up to usage counters has the ids 1 to 6. -/
theorem ids_of_seeded (ps : List Product)
    (h : ps.map resetUsage = NewMockProductRepository.products) :
    ps.map (fun p => p.ID) = [1, 2, 3, 4, 5, 6] := by
  rw [ids_of_resetUsage, h]
  rfl

theorem nodup_ids_of_seeded (ps : List Product)
    (h : ps.map resetUsage = NewMockProductRepository.products) :
    (ps.map (fun p => p.ID)).Nodup := by
  rw [ids_of_seeded ps h]
  decide

/-- Every state reached from the fresh service has the seeded catalog, up to
usage counters. -/
theorem runCalls_resetUsage (calls : List (Int × Unit)) :
    (runCalls calls).repo.products.map resetUsage = NewMockProductRepository.products := by
  apply runCalls_induction
    (fun s => s.repo.products.map resetUsage = NewMockProductRepository.products)
  · rfl
  · intro s id unit hs
    rw [AddProductToList_resetUsage, hs]

theorem itemsOf_append (items : List ShoppingItem) (item : ShoppingItem) (id : Int) :
    itemsOf (items ++ [item]) id = itemsOf items id + (if item.ProductID = id then 1 else 0) := by
  by_cases h : item.ProductID = id
  · simp [itemsOf, List.filter_append, h]
  · simp [itemsOf, List.filter_append, h]

theorem itemsOf_le_length (items : List ShoppingItem) (id : Int) :
    itemsOf items id ≤ items.length :=
  List.length_filter_le _ _

/-- A call never shortens the shopping list. -/
theorem AddProductToList_length_le (s : ShoppingService) (id : Int) (unit : Unit) :
    s.shoppingList.length ≤ (AddProductToList s id unit).1.shoppingList.length := by
  rcases AddProductToList_fails_or_ok s id unit with h | ⟨ptr, h⟩
  · rw [h]
  · obtain ⟨pre, p, post, _, _, _, _, _, h6⟩ := AddProductToList_ok s id unit ptr h
    rw [h6]; simp

/-- In a state with pairwise distinct ids where the counters match the list, a
call keeps them matching, as long as the length of the list after the call is
an `int`. -/
theorem AddProductToList_counts (s : ShoppingService) (id : Int) (unit : Unit)
    (hnd : (s.repo.products.map (fun p => p.ID)).Nodup)
    (hc : ∀ p ∈ s.repo.products, p.UsageCount = (itemsOf s.shoppingList p.ID : Int))
    (hsum : (s.repo.products.map (fun p => p.UsageCount)).sum = (s.shoppingList.length : Int))
    (hfit : ((AddProductToList s id unit).1.shoppingList.length : Int) ≤ maxInt) :
    (∀ p ∈ (AddProductToList s id unit).1.repo.products,
      p.UsageCount = (itemsOf (AddProductToList s id unit).1.shoppingList p.ID : Int)) ∧
    ((AddProductToList s id unit).1.repo.products.map (fun p => p.UsageCount)).sum =
      ((AddProductToList s id unit).1.shoppingList.length : Int) := by
  rcases AddProductToList_fails_or_ok s id unit with h | ⟨ptr, h⟩
  · rw [h]; exact ⟨hc, hsum⟩
  · obtain ⟨pre, p, post, h1, h2, h3, _, _, h6⟩ := AddProductToList_ok s id unit ptr h
    rw [h6] at hfit ⊢
    rw [h1] at hc hsum hnd
    have hpc := hc p (by simp)
    have hple := itemsOf_le_length s.shoppingList p.ID
    have hw : wrapInt (p.UsageCount + 1) = p.UsageCount + 1 := by
      simp only [maxInt, List.length_append, List.length_singleton] at hfit
      push_cast at hfit
      exact wrapInt_of_range _ (by omega) (by omega)
    simp only [hw]
    simp only [List.map_append, List.map_cons] at hnd
    have hpost : ∀ q ∈ post, q.ID ≠ id := by
      intro q hq hqid
      have hn := (List.nodup_cons.1 (List.nodup_append.1 hnd).2.1).1
      apply hn
      rw [h3, ← hqid]
      exact List.mem_map_of_mem _ hq
    constructor
    · intro q hq
      simp only [itemsOf_append]
      rcases List.mem_append.1 hq with hq | hq
      · have := hc q (by simp [hq])
        simp [this, Ne.symm (h2 q hq)]
      · rcases List.mem_cons.1 hq with hq | hq
        · subst hq
          simp [hpc, h3]
        · have := hc q (by simp [hq])
          simp [this, Ne.symm (hpost q hq)]
    · simp only [List.map_append, List.map_cons, List.sum_append, List.sum_cons,
        List.length_append, List.length_singleton] at hsum ⊢
      push_cast
      omega

/-- Incrementing a wrapped counter is wrapping the incremented count. -/
theorem wrapInt_succ (x : Int) : wrapInt (wrapInt x + 1) = wrapInt (x + 1) := by
  unfold wrapInt
  omega

/-- In a state with pairwise distinct ids where every counter is the wrapped
number of items of its product, a call keeps it so. -/
theorem AddProductToList_counts_wrap (s : ShoppingService) (id : Int) (unit : Unit)
    (hnd : (s.repo.products.map (fun p => p.ID)).Nodup)
    (hc : ∀ p ∈ s.repo.products, p.UsageCount = wrapInt (itemsOf s.shoppingList p.ID)) :
    ∀ p ∈ (AddProductToList s id unit).1.repo.products,
      p.UsageCount = wrapInt (itemsOf (AddProductToList s id unit).1.shoppingList p.ID) := by
  rcases AddProductToList_fails_or_ok s id unit with h | ⟨ptr, h⟩
  · rw [h]; exact hc
  · obtain ⟨pre, p, post, h1, h2, h3, _, _, h6⟩ := AddProductToList_ok s id unit ptr h
    rw [h6]
    rw [h1] at hc hnd
    simp only [List.map_append, List.map_cons] at hnd
    have hpost : ∀ q ∈ post, q.ID ≠ id := by
      intro q hq hqid
      have hn := (List.nodup_cons.1 (List.nodup_append.1 hnd).2.1).1
      apply hn
      rw [h3, ← hqid]
      exact List.mem_map_of_mem _ hq
    intro q hq
    simp only [itemsOf_append]
    rcases List.mem_append.1 hq with hq | hq
    · have := hc q (by simp [hq])
      simp [this, Ne.symm (h2 q hq)]
    · rcases List.mem_cons.1 hq with hq | hq
      · subst hq
        have hpc := hc p (by simp)
        simp only [h3, if_true, hpc]
        push_cast
        exact wrapInt_succ _
      · have := hc q (by simp [hq])
        simp [this, Ne.symm (hpost q hq)]

/-- A call keeps every item of the list tied to a catalog product that allows
the unit of the item. -/
theorem AddProductToList_items_valid (s : ShoppingService) (id : Int) (unit : Unit)
    (hs : ∀ item ∈ s.shoppingList, ∃ p ∈ s.repo.products,
      p.ID = item.ProductID ∧ item.Unit ∈ p.AvailableUnits) :
    ∀ item ∈ (AddProductToList s id unit).1.shoppingList,
      ∃ p ∈ (AddProductToList s id unit).1.repo.products,
        p.ID = item.ProductID ∧ item.Unit ∈ p.AvailableUnits := by
  rcases AddProductToList_fails_or_ok s id unit with h | ⟨ptr, h⟩
  · rw [h]; exact hs
  · obtain ⟨pre, p, post, h1, _, h3, h4, _, h6⟩ := AddProductToList_ok s id unit ptr h
    rw [h6]
    intro item hitem
    rcases List.mem_append.1 hitem with hold | hnew
    · obtain ⟨q, hq, hqid, hqu⟩ := hs item hold
      rw [h1] at hq
      rcases List.mem_append.1 hq with hq | hq
      · exact ⟨q, by simp [hq], hqid, hqu⟩
      · rcases List.mem_cons.1 hq with hq | hq
        · subst hq
          exact ⟨{ q with UsageCount := wrapInt (q.UsageCount + 1) }, by simp, hqid, hqu⟩
        · exact ⟨q, by simp [hq], hqid, hqu⟩
    · have hi : item = { ProductID := id, Quantity := 1, Unit := unit } := by simpa using hnew
      subst hi
      exact ⟨{ p with UsageCount := wrapInt (p.UsageCount + 1) }, by simp, h3, h4⟩

/-! ## Invariants of the reachable states -/

/-- C11: in every state reached from a freshly constructed service by a
sequence of `AddProductToList` calls, successful or failing, every item of the
shopping list names a product id present in the catalog, and the unit of the
item is among the `AvailableUnits` of the catalog product with that id. -/
theorem shoppingList_items_valid (calls : List (Int × Unit)) :
    ∀ item ∈ (runCalls calls).shoppingList,
      (∃ p ∈ (runCalls calls).repo.products,
        p.ID = item.ProductID ∧ item.Unit ∈ p.AvailableUnits) ∧
      (∀ q ∈ (runCalls calls).repo.products,
        q.ID = item.ProductID → item.Unit ∈ q.AvailableUnits) := by
  have hJ : ∀ item ∈ (runCalls calls).shoppingList, ∃ p ∈ (runCalls calls).repo.products,
      p.ID = item.ProductID ∧ item.Unit ∈ p.AvailableUnits := by
    apply runCalls_induction
      (fun s => ∀ item ∈ s.shoppingList, ∃ p ∈ s.repo.products,
        p.ID = item.ProductID ∧ item.Unit ∈ p.AvailableUnits)
    · intro item hitem
      simp [newShoppingService] at hitem
    · intro s id unit hs
      exact AddProductToList_items_valid s id unit hs
  have hnd := nodup_ids_of_seeded _ (runCalls_resetUsage calls)
  intro item hitem
  obtain ⟨p, hp, hpid, hpu⟩ := hJ item hitem
  refine ⟨⟨p, hp, hpid, hpu⟩, ?_⟩
  intro q hq hqid
  have : q = p := List.inj_on_of_nodup_map hnd hq hp (by rw [hqid, hpid])
  rw [this]
  exact hpu

theorem shoppingList_items_valid_witness :
    (⟨4, 1, "kg"⟩ : ShoppingItem) ∈ (runCalls [(4, "kg"), (1, "kg"), (9, "l")]).shoppingList ∧
    (∃ p ∈ (runCalls [(4, "kg"), (1, "kg"), (9, "l")]).repo.products,
      p.ID = 4 ∧ "kg" ∈ p.AvailableUnits) ∧
    (∀ q ∈ (runCalls [(4, "kg"), (1, "kg"), (9, "l")]).repo.products,
      q.ID = 4 → "kg" ∈ q.AvailableUnits) :=
  ⟨by decide,
   shoppingList_items_valid [(4, "kg"), (1, "kg"), (9, "l")] ⟨4, 1, "kg"⟩ (by decide)⟩

/-- C13: on a freshly constructed repository `GetAll` returns, without error,
exactly 6 products, in catalog insertion order with the ids 1, 2, 3, 4, 5, 6
(pairwise distinct), each with usage count 0 and a non-empty list of available
units. -/
theorem GetAll_fresh :
    ∃ ps, GetAll NewMockProductRepository = .ok ps ∧
      ps = NewMockProductRepository.products ∧
      ps.length = 6 ∧
      ps.map (fun p => p.ID) = [1, 2, 3, 4, 5, 6] ∧
      (ps.map (fun p => p.ID)).Nodup ∧
      (∀ p ∈ ps, p.UsageCount = 0 ∧ p.AvailableUnits ≠ []) ∧
      ps.map (fun p => p.Name) =
        ["Mleko", "Ser żółty", "Jogurt naturalny", "Pomidor", "Ogórek", "Chleb"] := by
  refine ⟨NewMockProductRepository.products, rfl, rfl, by decide, by decide, by decide,
    by decide, by decide⟩

/-- C17: in every state reached from a freshly constructed service by a
sequence of `AddProductToList` calls, the usage count of each catalog product
is the number of shopping-list items whose `ProductID` is the id of that
product, and the sum of all usage counts is the length of the shopping list.
The shopping list is a Go slice, so its length is an `int`, at most
`2^63 - 1`: up to that length no counter wraps.  For a list of any length each
usage count is the number of items of its product wrapped into a 64-bit
`int`. -/
theorem usage_counts_match_list (calls : List (Int × Unit)) :
    (((runCalls calls).shoppingList.length : Int) ≤ maxInt →
      (∀ p ∈ (runCalls calls).repo.products,
        p.UsageCount = (itemsOf (runCalls calls).shoppingList p.ID : Int)) ∧
      ((runCalls calls).repo.products.map (fun p => p.UsageCount)).sum =
        ((runCalls calls).shoppingList.length : Int)) ∧
    (∀ p ∈ (runCalls calls).repo.products,
      p.UsageCount = wrapInt (itemsOf (runCalls calls).shoppingList p.ID)) := by
  constructor
  · have h := runCalls_induction
      (fun s => s.repo.products.map resetUsage = NewMockProductRepository.products ∧
        ((s.shoppingList.length : Int) ≤ maxInt →
          (∀ p ∈ s.repo.products, p.UsageCount = (itemsOf s.shoppingList p.ID : Int)) ∧
          (s.repo.products.map (fun p => p.UsageCount)).sum = (s.shoppingList.length : Int)))
      ⟨rfl, fun _ => ⟨by decide, by decide⟩⟩
      (by
        intro s id unit hs
        obtain ⟨h1, h2⟩ := hs
        refine ⟨by rw [AddProductToList_resetUsage, h1], ?_⟩
        intro hafter
        have hle := AddProductToList_length_le s id unit
        have hbefore : (s.shoppingList.length : Int) ≤ maxInt := by omega
        obtain ⟨h3, h4⟩ := h2 hbefore
        exact AddProductToList_counts s id unit (nodup_ids_of_seeded _ h1) h3 h4 hafter)
      calls
    exact h.2
  · have h := runCalls_induction
      (fun s => s.repo.products.map resetUsage = NewMockProductRepository.products ∧
        ∀ p ∈ s.repo.products, p.UsageCount = wrapInt (itemsOf s.shoppingList p.ID))
      ⟨rfl, by decide⟩
      (by
        intro s id unit hs
        obtain ⟨h1, h2⟩ := hs
        exact ⟨by rw [AddProductToList_resetUsage, h1],
          AddProductToList_counts_wrap s id unit (nodup_ids_of_seeded _ h1) h2⟩)
      calls
    exact h.2

theorem usage_counts_match_list_witness :
    (((runCalls [(4, "kg"), (1, "kg"), (4, "szt."), (9, "l")]).shoppingList.length : Nat) : Int)
      ≤ maxInt ∧
    (runCalls [(4, "kg"), (1, "kg"), (4, "szt."), (9, "l")]).repo.products.map
      (fun p => p.UsageCount) = [0, 0, 0, 2, 0, 0] ∧
    (∀ p ∈ (runCalls [(4, "kg"), (1, "kg"), (4, "szt."), (9, "l")]).repo.products,
      p.UsageCount =
        (itemsOf (runCalls [(4, "kg"), (1, "kg"), (4, "szt."), (9, "l")]).shoppingList p.ID
          : Int)) :=
  ⟨by decide, by decide,
   ((usage_counts_match_list [(4, "kg"), (1, "kg"), (4, "szt."), (9, "l")]).1
      (by decide)).1⟩

/-- C18: a successful `AddProductToList id unit` changes nothing in the catalog
but the usage count of the product it resolved: the catalog keeps its length,
every other entry is the same before and after, the entry of the product keeps
its `ID`, `Name`, `Category` and `AvailableUnits` and has its usage count
incremented (`product.UsageCount++` on a 64-bit `int`: one higher below the
largest `int`), so the catalog keeps its order and its ids; and the product ids
are pairwise distinct in every state reached from a fresh service. -/
theorem AddProductToList_frame (s : ShoppingService) (id : Int) (unit : Unit)
    (calls : List (Int × Unit)) :
    (∀ ptr, (AddProductToList s id unit).2 = .ok ptr →
      (AddProductToList s id unit).1.repo.products.length = s.repo.products.length ∧
      (∀ i, i ≠ ptr.index →
        (AddProductToList s id unit).1.repo.products[i]? = s.repo.products[i]?) ∧
      (∃ old, s.repo.products[ptr.index]? = some old ∧ old.ID = id ∧
        (AddProductToList s id unit).1.repo.products[ptr.index]? =
          some { ID := old.ID, Name := old.Name, Category := old.Category,
                 AvailableUnits := old.AvailableUnits,
                 UsageCount := wrapInt (old.UsageCount + 1) } ∧
        (-9223372036854775808 ≤ old.UsageCount → old.UsageCount < maxInt →
          wrapInt (old.UsageCount + 1) = old.UsageCount + 1)) ∧
      (AddProductToList s id unit).1.repo.products.map (fun p => p.ID) =
        s.repo.products.map (fun p => p.ID) ∧
      (AddProductToList s id unit).1.repo.products.map resetUsage =
        s.repo.products.map resetUsage) ∧
    ((runCalls calls).repo.products.map (fun p => p.ID)).Nodup := by
  refine ⟨?_, nodup_ids_of_seeded _ (runCalls_resetUsage calls)⟩
  intro ptr h
  obtain ⟨pre, p, post, h1, _, h3, _, h5, h6⟩ := AddProductToList_ok s id unit ptr h
  have hidx : ptr.index = pre.length := by rw [h5]
  refine ⟨?_, ?_, ?_, ?_, AddProductToList_resetUsage s id unit⟩
  · rw [h6, h1]; simp
  · intro i hi
    rw [h6, h1]
    exact getElem?_split_ne pre post _ _ i (by rw [← hidx]; exact hi)
  · refine ⟨p, ?_, h3, ?_, ?_⟩
    · rw [h1, hidx]; exact getElem?_split_eq pre post p
    · rw [h6, hidx]; exact getElem?_split_eq pre post _
    · intro hlo hhi
      simp only [maxInt] at hhi
      exact wrapInt_of_range _ (by omega) (by omega)
  · rw [ids_of_resetUsage, AddProductToList_resetUsage, ← ids_of_resetUsage]

theorem AddProductToList_frame_witness :
    (AddProductToList newShoppingService 2 "g").2 =
      .ok ⟨1, ⟨2, "Ser żółty", "nabiał", ["kg", "g"], 1⟩⟩ ∧
    (AddProductToList newShoppingService 2 "g").1.repo.products.map resetUsage =
      newShoppingService.repo.products.map resetUsage ∧
    (AddProductToList newShoppingService 2 "g").1.repo.products[0]? =
      newShoppingService.repo.products[0]? :=
  ⟨by decide,
   ((AddProductToList_frame newShoppingService 2 "g" []).1 _ rfl).2.2.2.2,
   ((AddProductToList_frame newShoppingService 2 "g" []).1
      ⟨1, ⟨2, "Ser żółty", "nabiał", ["kg", "g"], 1⟩⟩ rfl).2.1 0 (by decide)⟩

/-! ## GetMostUsed: the copy, ties and the slice bound -/

/-- The insertion step never moves an element past one it is not less than:
pairs that are not in strict order keep the order `Q` they came in. -/
theorem sinkDown_stable (less : Product → Product → Bool) (Q : Product → Product → Prop)
    (x : Product) (l : List Product)
    (hl : l.Pairwise (fun y z => less z y = false → Q z y))
    (hx : ∀ d ∈ l, Q d x) :
    (sinkDown less x l).Pairwise (fun y z => less z y = false → Q z y) := by
  induction l with
  | nil => simp [sinkDown]
  | cons y before ih =>
    obtain ⟨hy, hbefore⟩ := List.pairwise_cons.1 hl
    by_cases h : less x y = true
    · simp only [sinkDown, h, if_true]
      refine List.pairwise_cons.2 ⟨?_, ih hbefore (fun d hd => hx d (by simp [hd]))⟩
      intro z hz hzy
      rcases List.mem_cons.1 ((sinkDown_perm less x before).mem_iff.1 hz) with rfl | hz
      · rw [h] at hzy; cases hzy
      · exact hy z hz hzy
    · simp only [sinkDown, h]
      refine List.pairwise_cons.2 ⟨?_, hl⟩
      intro z hz _
      exact hx z hz

theorem insertionLoop_stable (less : Product → Product → Bool) (Q : Product → Product → Prop)
    (rest done : List Product)
    (hdone : done.Pairwise (fun y z => less z y = false → Q z y))
    (hcross : ∀ d ∈ done, ∀ r ∈ rest, Q d r)
    (hrest : rest.Pairwise Q) :
    (insertionLoop less done rest).Pairwise (fun a b => less a b = false → Q a b) := by
  induction rest generalizing done with
  | nil =>
    simp only [insertionLoop]
    exact List.pairwise_reverse.2 hdone
  | cons x rest ih =>
    obtain ⟨hx, hrest2⟩ := List.pairwise_cons.1 hrest
    simp only [insertionLoop]
    apply ih
    · exact sinkDown_stable less Q x done hdone (fun d hd => hcross d hd x (by simp))
    · intro d hd r hr
      rcases List.mem_cons.1 ((sinkDown_perm less x done).mem_iff.1 hd) with rfl | hd
      · exact hx r hr
      · exact hcross d hd r (by simp [hr])
    · exact hrest2

/-- The insertion sort of the Go library is stable. -/
theorem insertionSortLessFunc_stable (less : Product → Product → Bool)
    (Q : Product → Product → Prop) (data : List Product) (hdata : data.Pairwise Q) :
    (insertionSortLessFunc less data).Pairwise (fun a b => less a b = false → Q a b) :=
  insertionLoop_stable less Q data [] List.Pairwise.nil (by simp) hdata

/-- In a state with pairwise distinct ids, a call that names a catalog product
and one of its units succeeds and returns that product. -/
theorem AddProductToList_of_mem (s : ShoppingService) (id : Int) (unit : Unit) (p : Product)
    (hnd : (s.repo.products.map (fun p => p.ID)).Nodup)
    (hp : p ∈ s.repo.products) (hid : p.ID = id) (hu : unit ∈ p.AvailableUnits) :
    ∃ i, (AddProductToList s id unit).2 =
      .ok ⟨i, { p with UsageCount := wrapInt (p.UsageCount + 1) }⟩ := by
  cases hf : FindByID s.repo id with
  | error e => exact absurd hid (((FindByID_error_iff s.repo id e).1 hf).2 p hp)
  | ok found =>
    obtain ⟨pre, post, h1, _, h3, _⟩ := (FindByID_ok_iff s.repo id found).1 hf
    have hmem : found.target ∈ s.repo.products := by rw [h1]; simp
    have heq : found.target = p :=
      List.inj_on_of_nodup_map hnd hmem hp (by rw [h3, hid])
    have hc : slicesContains found.target.AvailableUnits unit = true := by
      rw [heq]; exact (slicesContains_iff _ _).2 hu
    refine ⟨found.index, ?_⟩
    simp [AddProductToList, hf, hc, ← heq]

/-- A POST whose item `AddProductToList` accepts is answered with status 201
and the message that quotes the name of the product. -/
theorem handleAddItem_ok (s : ShoppingService) (req : ShoppingItem) (ptr : ProductPtr)
    (h : (AddProductToList s req.ProductID req.Unit).2 = .ok ptr) :
    handleAddItem s { Method := "POST", Body := some req } =
      ((AddProductToList s req.ProductID req.Unit).1,
       { code := 201,
         body := [("message", "Dodano '" ++ ptr.target.Name ++ "' do listy zakupów")] }) := by
  cases hA : AddProductToList s req.ProductID req.Unit with
  | mk s1 r =>
    rw [hA] at h
    simp only at h
    subst h
    simp [handleAddItem, hA]

/-- Writing to a slice leaves every other backing array as it is. -/
theorem writeSlice_other (h : Heap) (x : Slice) (elems : List Product) (a : Nat)
    (ha : a ≠ x.array) : (writeSlice h x elems)[a]? = h[a]? := by
  unfold writeSlice
  exact List.getElem?_set_ne (fun e => ha e.symm)

/-- Writing to a slice replaces its backing array. -/
theorem writeSlice_self (h : Heap) (x : Slice) (elems : List Product)
    (hx : x.array < h.length) :
    backing (writeSlice h x elems) x = elems ++ (backing h x).drop elems.length := by
  unfold writeSlice backing
  rw [List.getD_eq_getElem?_getD, List.getElem?_set_self hx]
  rfl

theorem backing_congr (h1 h2 : Heap) (x : Slice) (e : h1[x.array]? = h2[x.array]?) :
    backing h1 x = backing h2 x := by
  unfold backing
  rw [List.getD_eq_getElem?_getD, List.getD_eq_getElem?_getD, e]

/-- The heap after `GetMostUsed` holds every array that was there before,
unchanged. -/
theorem GetMostUsedOnHeap_frame
    (sortSlice : (Product → Product → Bool) → List Product → List Product)
    (h : Heap) (products : Slice) (n : Int) (a : Nat) (ha : a < h.length) :
    (GetMostUsedOnHeap sortSlice h products n).1[a]? = h[a]? := by
  have hne : a ≠ (makeSlice h products.len).2.array := by
    simp only [makeSlice]; omega
  simp only [GetMostUsedOnHeap, sortInPlace, copyInto]
  rw [writeSlice_other _ _ _ _ hne, writeSlice_other _ _ _ _ hne]
  simp only [makeSlice]
  exact List.getElem?_append_left ha

/-- The slice `GetMostUsed` returns holds, on the heap after the call, what
`GetMostUsed` read as a function of the catalog returns. -/
theorem GetMostUsedOnHeap_result
    (sortSlice : (Product → Product → Bool) → List Product → List Product)
    (hsort : SortSliceSpec sortSlice) (h : Heap) (products : Slice) (n : Int)
    (hm : products.array < h.length) (hlen : products.len ≤ (backing h products).length) :
    (GetMostUsedOnHeap sortSlice h products n).2.map
        (Except.map (readSlice (GetMostUsedOnHeap sortSlice h products n).1)) =
      GetMostUsed sortSlice { products := readSlice h products } n := by
  have hps : (readSlice h products).length = products.len := by
    simp only [readSlice, List.length_take]; omega
  have hsorted : (sortSlice usageLess (readSlice h products)).length = products.len := by
    rw [(hsort usageLess usageLess_asymm usageLess_negTrans _).1.length_eq, hps]
  -- the heap and the slice after `make`
  have hpc : (makeSlice h products.len).2 = { array := h.length, len := products.len } := rfl
  have hvalid : (makeSlice h products.len).2.array < (makeSlice h products.len).1.length := by
    simp [makeSlice]
  have hread0 : readSlice (makeSlice h products.len).1 products = readSlice h products := by
    unfold readSlice
    rw [backing_congr _ h products (by simp only [makeSlice]; exact List.getElem?_append_left hm)]
  have hback0 : backing (makeSlice h products.len).1 (makeSlice h products.len).2 =
      List.replicate products.len zeroProduct := by
    simp [backing, makeSlice]
  -- after `copy`
  have hback1 : backing (copyInto (makeSlice h products.len).1 (makeSlice h products.len).2
      products) (makeSlice h products.len).2 = readSlice h products := by
    unfold copyInto
    rw [writeSlice_self _ _ _ hvalid, hread0, hback0, hpc]
    simp only [Nat.min_self]
    rw [List.take_of_length_le (by omega)]
    simp [hps]
  have hvalid1 : (makeSlice h products.len).2.array <
      (copyInto (makeSlice h products.len).1 (makeSlice h products.len).2 products).length := by
    simp [copyInto, writeSlice, makeSlice]
  have hread1 : readSlice (copyInto (makeSlice h products.len).1 (makeSlice h products.len).2
      products) (makeSlice h products.len).2 = readSlice h products := by
    unfold readSlice
    rw [hback1, hpc]
    exact List.take_of_length_le (by simp only [readSlice, List.length_take]; omega)
  -- after `sort.Slice`
  have hback2 : backing (GetMostUsedOnHeap sortSlice h products n).1
      { array := h.length, len := products.len } =
      sortSlice usageLess (readSlice h products) := by
    simp only [GetMostUsedOnHeap, sortInPlace]
    rw [← hpc, writeSlice_self _ _ _ hvalid1, hread1, hback1]
    rw [List.drop_of_length_le (by omega)]
    simp
  have hreadk : ∀ k, readSlice (GetMostUsedOnHeap sortSlice h products n).1
      { array := h.length, len := k } = (sortSlice usageLess (readSlice h products)).take k := by
    intro k
    have e : readSlice (GetMostUsedOnHeap sortSlice h products n).1
        { array := h.length, len := k } =
        (backing (GetMostUsedOnHeap sortSlice h products n).1
          { array := h.length, len := products.len }).take k := rfl
    rw [e, hback2]
  by_cases hneg :
      (if n > (products.len : Int) then (products.len : Int) else n) < 0
  · simp [GetMostUsedOnHeap, GetMostUsed, hsorted, hneg, makeSlice]
  · simp only [GetMostUsed, hsorted, hneg, if_false]
    have e : (GetMostUsedOnHeap sortSlice h products n).2 =
        some (.ok { array := h.length,
                    len := (if n > (products.len : Int) then (products.len : Int)
                            else n).toNat }) := by
      simp [GetMostUsedOnHeap, makeSlice, hneg]
    rw [e]
    simp only [Option.map_some', Except.map, hreadk]

/-- Had `sort.Slice` been handed the slice `m.products` itself, the catalog
would have changed: the heap model tells the copy from the original. -/
theorem sortInPlace_changes_its_array :
    readSlice (sortInPlace insertionSortLessFunc usageLess
      [(AddProductToList newShoppingService 2 "g").1.repo.products] { array := 0, len := 6 })
      { array := 0, len := 6 } ≠
    readSlice [(AddProductToList newShoppingService 2 "g").1.repo.products]
      { array := 0, len := 6 } := by
  decide

/-- C12: `GetMostUsed` works on a copy: for every heap in which `m.products` is
an allocated slice, every catalog (whatever the usage counts) and every limit,
the call leaves every backing array that existed before it unchanged, so the
elements of `m.products` are the same, in the same order, and `GetAll` returns
the same before and after; the sorting happens in the array `make` allocated,
and the slice returned holds what `GetMostUsed` returns as a function of the
catalog. -/
theorem GetMostUsed_leaves_catalog
    (sortSlice : (Product → Product → Bool) → List Product → List Product)
    (h : Heap) (products : Slice) (n : Int) (hm : products.array < h.length) :
    (∀ a, a < h.length → (GetMostUsedOnHeap sortSlice h products n).1[a]? = h[a]?) ∧
    readSlice (GetMostUsedOnHeap sortSlice h products n).1 products = readSlice h products ∧
    GetAllOnHeap (GetMostUsedOnHeap sortSlice h products n).1 products =
      GetAllOnHeap h products ∧
    (SortSliceSpec sortSlice → products.len ≤ (backing h products).length →
      (GetMostUsedOnHeap sortSlice h products n).2.map
          (Except.map (readSlice (GetMostUsedOnHeap sortSlice h products n).1)) =
        GetMostUsed sortSlice { products := readSlice h products } n) := by
  have hread : readSlice (GetMostUsedOnHeap sortSlice h products n).1 products =
      readSlice h products := by
    unfold readSlice
    rw [backing_congr _ h products (GetMostUsedOnHeap_frame sortSlice h products n _ hm)]
  refine ⟨fun a ha => GetMostUsedOnHeap_frame sortSlice h products n a ha, hread, ?_, ?_⟩
  · unfold GetAllOnHeap
    rw [hread]
  · intro hsort hlen
    exact GetMostUsedOnHeap_result sortSlice hsort h products n hm hlen

theorem GetMostUsed_leaves_catalog_witness :
    (0 : Nat) < [(runCalls [(4, "kg"), (2, "g"), (4, "szt.")]).repo.products].length ∧
    GetAllOnHeap (GetMostUsedOnHeap insertionSortLessFunc
        [(runCalls [(4, "kg"), (2, "g"), (4, "szt.")]).repo.products]
        { array := 0, len := 6 } 2).1 { array := 0, len := 6 } =
      GetAllOnHeap [(runCalls [(4, "kg"), (2, "g"), (4, "szt.")]).repo.products]
        { array := 0, len := 6 } ∧
    (GetMostUsedOnHeap insertionSortLessFunc
        [(runCalls [(4, "kg"), (2, "g"), (4, "szt.")]).repo.products]
        { array := 0, len := 6 } 2).2 = some (.ok { array := 1, len := 2 }) ∧
    (readSlice (GetMostUsedOnHeap insertionSortLessFunc
        [(runCalls [(4, "kg"), (2, "g"), (4, "szt.")]).repo.products]
        { array := 0, len := 6 } 2).1 { array := 1, len := 2 }).map
      (fun p => (p.ID, p.UsageCount)) = [(4, 2), (2, 1)] :=
  ⟨by decide,
   (GetMostUsed_leaves_catalog insertionSortLessFunc
      [(runCalls [(4, "kg"), (2, "g"), (4, "szt.")]).repo.products]
      { array := 0, len := 6 } 2 (by decide)).2.2.1,
   by decide, by decide⟩

/-- C14: in a state whose product ids are pairwise distinct (every state the
server reaches is one), a POST to `handleAddItem` whose body names the id of a
catalog product and a unit among the available units of that product is
answered with status 201 and the message "Dodano '<name>' do listy zakupów",
`<name>` being the name of the product; for product 1 with unit "l" on the
seeded catalog the message is "Dodano 'Mleko' do listy zakupów". -/
theorem handleAddItem_created (s : ShoppingService) (req : ShoppingItem) (p : Product)
    (hnd : (s.repo.products.map (fun p => p.ID)).Nodup)
    (hp : p ∈ s.repo.products) (hid : p.ID = req.ProductID)
    (hu : req.Unit ∈ p.AvailableUnits) :
    (handleAddItem s { Method := "POST", Body := some req }).2 =
      { code := 201, body := [("message", "Dodano '" ++ p.Name ++ "' do listy zakupów")] } ∧
    (∀ quantity, (handleAddItem newShoppingService
        { Method := "POST", Body := some { ProductID := 1, Quantity := quantity, Unit := "l" } }).2 =
      { code := 201, body := [("message", "Dodano 'Mleko' do listy zakupów")] }) := by
  constructor
  · obtain ⟨i, h⟩ := AddProductToList_of_mem s req.ProductID req.Unit p hnd hp hid hu
    rw [handleAddItem_ok s req _ h]
  · intro quantity
    rw [handleAddItem_ok newShoppingService ⟨1, quantity, "l"⟩
      ⟨0, ⟨1, "Mleko", "nabiał", ["l", "ml"], 1⟩⟩ rfl]
    rfl

theorem handleAddItem_created_witness :
    ((runCalls [(4, "kg"), (1, "ml")]).repo.products.map (fun p => p.ID)).Nodup ∧
    (handleAddItem (runCalls [(4, "kg"), (1, "ml")])
      { Method := "POST", Body := some { ProductID := 4, Quantity := 2, Unit := "szt." } }).2 =
      { code := 201, body := [("message", "Dodano 'Pomidor' do listy zakupów")] } :=
  ⟨by decide,
   (handleAddItem_created (runCalls [(4, "kg"), (1, "ml")]) ⟨4, 2, "szt."⟩
      ⟨4, "Pomidor", "warzywa", ["szt.", "kg"], 1⟩ (by decide) (by decide) (by decide)
      (by decide)).1⟩

/-- C15: in `handleGetMostUsed` the limit passed to `GetMostUsed` is the value
of the `limit` query parameter when `strconv.Atoi` parses it as an integer
greater than 0, and the default 3 in every other case (a parse error, as for a
missing or non-numeric parameter, or a value that is zero or negative); so the
handler always calls `GetMostUsed` with a limit of at least 1. -/
theorem requestLimit_spec (Atoi : String → Except String Int) (limitParam : String) :
    (∀ l, Atoi limitParam = .ok l → 0 < l → requestLimit Atoi limitParam = l) ∧
    (∀ l, Atoi limitParam = .ok l → l ≤ 0 → requestLimit Atoi limitParam = 3) ∧
    (∀ err, Atoi limitParam = .error err → requestLimit Atoi limitParam = 3) ∧
    1 ≤ requestLimit Atoi limitParam ∧
    (∀ sortSlice s, handleGetMostUsed Atoi sortSlice s limitParam =
      respondMostUsed (GetMostUsed sortSlice s.repo (requestLimit Atoi limitParam))) ∧
    requestLimit strconvAtoi "" = 3 ∧ requestLimit strconvAtoi "abc" = 3 ∧
    requestLimit strconvAtoi "0" = 3 ∧ requestLimit strconvAtoi "-4" = 3 ∧
    requestLimit strconvAtoi "5" = 5 := by
  refine ⟨?_, ?_, ?_, ?_, fun _ _ => rfl, by decide, by decide, by decide, by decide,
    by decide⟩
  · intro l h hl
    simp [requestLimit, h, hl]
  · intro l h hl
    have : ¬ 0 < l := by omega
    simp [requestLimit, h, this]
  · intro err h
    simp [requestLimit, h]
  · unfold requestLimit
    cases Atoi limitParam with
    | error e => simp
    | ok l =>
      by_cases hl : l > 0
      · simp [hl]; omega
      · simp [hl]

theorem requestLimit_spec_witness :
    strconvAtoi "12" = .ok 12 ∧ requestLimit strconvAtoi "12" = 12 :=
  ⟨by decide, (requestLimit_spec strconvAtoi "12").1 12 (by decide) (by decide)⟩

/-- C16: ties in `GetMostUsed` are broken by catalog order on the seeded
catalog: for every assignment of usage counts to the six seeded products (whose
ids ascend in catalog order) and every limit `n ≥ 0`, of two returned products
with equal usage count the one returned first is the one with the smaller id,
that is the earlier one in the catalog; on a fresh repository `GetMostUsed 3`
returns the products with ids 1, 2, 3 in that order.  (`sort.Slice` runs
`insertionSortLessFunc` on a slice of six elements.) -/
theorem GetMostUsed_ties_catalog_order (m : MockProductRepository) (n : Int)
    (hm : m.products.map resetUsage = NewMockProductRepository.products) (hn : 0 ≤ n) :
    m.products.map (fun p => p.ID) = [1, 2, 3, 4, 5, 6] ∧
    (∃ out, GetMostUsed insertionSortLessFunc m n = some (.ok out) ∧
      out.Pairwise (fun a b => a.UsageCount = b.UsageCount → a.ID < b.ID)) ∧
    GetMostUsed insertionSortLessFunc NewMockProductRepository 3 =
      some (.ok (NewMockProductRepository.products.take 3)) ∧
    (NewMockProductRepository.products.take 3).map (fun p => p.ID) = [1, 2, 3] := by
  have hids := ids_of_seeded m.products hm
  refine ⟨hids, ?_, by decide, by decide⟩
  refine ⟨_, GetMostUsed_nonneg insertionSortLessFunc insertionSortLessFunc_spec m n hn, ?_⟩
  have hdata : m.products.Pairwise (fun a b => a.ID < b.ID) := by
    have hp : (m.products.map (fun p => p.ID)).Pairwise (fun x y => x < y) := by
      rw [hids]; decide
    exact List.pairwise_map.1 hp
  have hstable := insertionSortLessFunc_stable usageLess (fun a b => a.ID < b.ID)
    m.products hdata
  refine List.Pairwise.sublist (List.take_sublist _ _) (hstable.imp ?_)
  intro a b hab heq
  apply hab
  simp [usageLess, heq]

theorem GetMostUsed_ties_catalog_order_witness :
    (runCalls [(5, "kg"), (2, "g"), (5, "szt.")]).repo.products.map resetUsage =
      NewMockProductRepository.products ∧ (0 : Int) ≤ 4 ∧
    (GetMostUsed insertionSortLessFunc (runCalls [(5, "kg"), (2, "g"), (5, "szt.")]).repo 4).map
      (Except.map (List.map (fun p => (p.ID, p.UsageCount)))) =
      some (.ok [(5, 2), (2, 1), (1, 0), (3, 0)]) ∧
    ∃ out, GetMostUsed insertionSortLessFunc
        (runCalls [(5, "kg"), (2, "g"), (5, "szt.")]).repo 4 = some (.ok out) ∧
      out.Pairwise (fun a b => a.UsageCount = b.UsageCount → a.ID < b.ID) :=
  ⟨by decide, by decide, by decide,
   (GetMostUsed_ties_catalog_order (runCalls [(5, "kg"), (2, "g"), (5, "szt.")]).repo 4
      (by decide) (by decide)).2.1⟩

/-- C19: `GetMostUsed limit` returns a result, without a run-time failure, if
and only if `limit ≥ 0`: for `limit = 0` the result is the empty sequence, for
every `limit ≥ 0` the slice bound is `min limit (catalog size)`, which is
within the length of `productsCopy`, and for every `limit < 0` the slice
expression `productsCopy[:limit]` is out of range and the call fails.
(`sort.Slice` enters through its contract, which keeps the length.) -/
theorem GetMostUsed_returns_iff
    (sortSlice : (Product → Product → Bool) → List Product → List Product)
    (hsort : SortSliceSpec sortSlice) (m : MockProductRepository) (limit : Int) :
    ((∃ out, GetMostUsed sortSlice m limit = some (.ok out)) ↔ 0 ≤ limit) ∧
    (GetMostUsed sortSlice m limit = none ↔ limit < 0) ∧
    GetMostUsed sortSlice m 0 = some (.ok []) ∧
    (0 ≤ limit →
      GetMostUsed sortSlice m limit =
        some (.ok ((sortSlice usageLess m.products).take
          (min limit.toNat m.products.length))) ∧
      min limit.toNat m.products.length ≤ (sortSlice usageLess m.products).length) := by
  have hlen : (sortSlice usageLess m.products).length = m.products.length :=
    (hsort usageLess usageLess_asymm usageLess_negTrans m.products).1.length_eq
  have hneg : limit < 0 → GetMostUsed sortSlice m limit = none := by
    intro h
    have h1 : ¬ limit > (m.products.length : Int) := by omega
    simp [GetMostUsed, hlen, h1, h]
  have hpos : 0 ≤ limit → GetMostUsed sortSlice m limit =
      some (.ok ((sortSlice usageLess m.products).take
        (min limit.toNat m.products.length))) :=
    GetMostUsed_nonneg sortSlice hsort m limit
  refine ⟨?_, ?_, ?_, ?_⟩
  · constructor
    · rintro ⟨out, h⟩
      by_contra hc
      rw [hneg (by omega)] at h
      cases h
    · intro h
      exact ⟨_, hpos h⟩
  · constructor
    · intro h
      by_contra hc
      rw [hpos (by omega)] at h
      cases h
    · exact hneg
  · rw [GetMostUsed_nonneg sortSlice hsort m 0 (by omega)]
    simp
  · intro h
    refine ⟨hpos h, ?_⟩
    rw [hlen]
    omega

theorem GetMostUsed_returns_iff_witness :
    SortSliceSpec insertionSortLessFunc ∧
    GetMostUsed insertionSortLessFunc NewMockProductRepository (-1) = none ∧
    (GetMostUsed insertionSortLessFunc NewMockProductRepository (-1) = none ↔
      (-1 : Int) < 0) ∧
    GetMostUsed insertionSortLessFunc NewMockProductRepository 0 = some (.ok []) :=
  ⟨insertionSortLessFunc_spec, by decide,
   (GetMostUsed_returns_iff insertionSortLessFunc insertionSortLessFunc_spec
      NewMockProductRepository (-1)).2.1,
   (GetMostUsed_returns_iff insertionSortLessFunc insertionSortLessFunc_spec
      NewMockProductRepository 0).2.2.1⟩

/-! ## AddProductToList: when it succeeds -/

/-- C1: in every service state, for every product id and unit,
`AddProductToList id unit` succeeds (returns a product and no error) if and
only if the catalog contains a product with that id and `unit` is a member of
the `AvailableUnits` of that product.  A service state has pairwise distinct
product ids, the invariant of the data model; the equivalence is also stated,
without a hypothesis, for every state the fresh service reaches by a sequence
of calls.  On the seeded catalog `AddProductToList 1 "l"` succeeds and
`AddProductToList 1 "kg"` fails. -/
theorem AddProductToList_succeeds_iff (s : ShoppingService) (id : Int) (unit : Unit)
    (calls : List (Int × Unit))
    (hnd : (s.repo.products.map (fun p => p.ID)).Nodup) :
    ((∃ ptr, (AddProductToList s id unit).2 = .ok ptr) ↔
      ∃ p ∈ s.repo.products, p.ID = id ∧ unit ∈ p.AvailableUnits) ∧
    ((∃ ptr, (AddProductToList (runCalls calls) id unit).2 = .ok ptr) ↔
      ∃ p ∈ (runCalls calls).repo.products, p.ID = id ∧ unit ∈ p.AvailableUnits) ∧
    (∃ ptr, (AddProductToList newShoppingService 1 "l").2 = .ok ptr) ∧
    (∃ err, (AddProductToList newShoppingService 1 "kg").2 = .error err) :=
  ⟨AddProductToList_ok_iff_mem s id unit hnd,
   AddProductToList_ok_iff_mem (runCalls calls) id unit
     (nodup_ids_of_seeded _ (runCalls_resetUsage calls)),
   ⟨_, rfl⟩, ⟨_, rfl⟩⟩

theorem AddProductToList_succeeds_iff_witness :
    (newShoppingService.repo.products.map (fun p => p.ID)).Nodup ∧
    ((∃ ptr, (AddProductToList newShoppingService 2 "kg").2 = .ok ptr) ↔
      ∃ p ∈ newShoppingService.repo.products, p.ID = 2 ∧ "kg" ∈ p.AvailableUnits) ∧
    (∃ ptr, (AddProductToList newShoppingService 2 "kg").2 = .ok ptr) :=
  ⟨by decide,
   (AddProductToList_succeeds_iff newShoppingService 2 "kg" [] (by decide)).1,
   ⟨_, rfl⟩⟩

end UserStory
